import Mathlib

/-!
# Verification of the vless-generator template-substitution service

Shallow embedding of the Go program `Aladex/vless-generator`.

Go's dynamic JSON values (`interface{}` holding `map[string]interface{}`,
`[]interface{}`, `string`, `int`, `float64`, `bool`, `nil`, `[]string`)
are embedded as the inductive type `GoVal`.  Go maps are embedded as
association lists with in-place update, which matches Go map semantics
for lookup and assignment (Go maps never hold duplicate keys).
JSON numbers decode to Go `float64`; every numeric literal in the
repository's templates is integral, so `float64` values are carried as
their integral value (`GoVal.float`).

Fallible Go functions returning `(T, error)` are embedded as
`Except String T`; functions returning `(T, bool)` as `Option T`.
-/

namespace VlessGen

/-- A dynamically typed Go value as produced by `json.Unmarshal` into
`interface{}`, plus the `[]string` values written by
`updateTemplateWithDynamicConfig` and the `int` values written from
`DynamicConfig` fields. -/
inductive GoVal where
  | str : String → GoVal
  | int : Int → GoVal
  | float : Int → GoVal
  | bool : Bool → GoVal
  | null : GoVal
  | arr : List GoVal → GoVal
  | obj : List (String × GoVal) → GoVal
  | strArr : List String → GoVal

/-- A Go `map[string]interface{}`, embedded as an association list. -/
abbrev GoMap := List (String × GoVal)

/-- Go map read `m[k]`: `some v` when the key is present (comma-ok true). -/
def mapGet : GoMap → String → Option GoVal
  | [], _ => none
  | (k, v) :: rest, key => if k = key then some v else mapGet rest key

/-- Go map write `m[k] = v`: replaces the value of an existing key,
otherwise adds the key. -/
def mapSet : GoMap → String → GoVal → GoMap
  | [], key, v => [(key, v)]
  | (k, w) :: rest, key, v =>
      if k = key then (key, v) :: rest else (k, w) :: mapSet rest key v

/-- Removal of a key from a map (used only to state frame properties). -/
def mapErase : GoMap → String → GoMap
  | [], _ => []
  | (k, v) :: rest, key =>
      if k = key then mapErase rest key else (k, v) :: mapErase rest key

theorem mapGet_mapSet_self (m : GoMap) (k : String) (v : GoVal) :
    mapGet (mapSet m k v) k = some v := by
  induction m with
  | nil => simp [mapGet, mapSet]
  | cons kv rest ih =>
    obtain ⟨k1, v1⟩ := kv
    by_cases h : k1 = k
    · simp [mapGet, mapSet, h]
    · simp [mapGet, mapSet, h, ih]

theorem mapGet_mapSet_ne (m : GoMap) (k k' : String) (v : GoVal)
    (h : k ≠ k') : mapGet (mapSet m k v) k' = mapGet m k' := by
  induction m with
  | nil => simp [mapGet, mapSet, h]
  | cons kv rest ih =>
    obtain ⟨k1, v1⟩ := kv
    by_cases hk : k1 = k
    · simp [mapGet, mapSet, hk, h, Ne.symm h]
    · by_cases hk' : k1 = k'
      · simp [mapGet, mapSet, hk, hk', Ne.symm h]
      · simp [mapGet, mapSet, hk, hk', Ne.symm h, ih]

theorem mapErase_mapSet_self (m : GoMap) (k : String) (v : GoVal) :
    mapErase (mapSet m k v) k = mapErase m k := by
  induction m with
  | nil => simp [mapErase, mapSet]
  | cons kv rest ih =>
    obtain ⟨k1, v1⟩ := kv
    by_cases h : k1 = k
    · simp [mapErase, mapSet, h]
    · simp [mapErase, mapSet, h, ih]

theorem mapErase_mapSet_ne (m : GoMap) (k k' : String) (v : GoVal)
    (h : k ≠ k') : mapErase (mapSet m k v) k' = mapSet (mapErase m k') k v := by
  induction m with
  | nil => simp [mapErase, mapSet, h]
  | cons kv rest ih =>
    obtain ⟨k1, v1⟩ := kv
    by_cases hk : k1 = k
    · have hk' : k1 ≠ k' := by rw [hk]; exact h
      simp [mapErase, mapSet, hk, hk', h, Ne.symm h]
    · by_cases hk' : k1 = k'
      · simp [mapErase, mapSet, hk, hk', h, Ne.symm h, ih]
      · simp [mapErase, mapSet, hk, hk', h, Ne.symm h, ih]

theorem mapGet_mapErase_ne (m : GoMap) (k k' : String)
    (h : k ≠ k') : mapGet (mapErase m k) k' = mapGet m k' := by
  induction m with
  | nil => simp [mapErase, mapGet]
  | cons kv rest ih =>
    obtain ⟨k1, v1⟩ := kv
    by_cases hk : k1 = k
    · have hk' : k1 ≠ k' := by rw [hk]; exact h
      simp [mapErase, mapGet, hk, hk', h, Ne.symm h, ih]
    · by_cases hk' : k1 = k'
      · simp [mapErase, mapGet, hk, hk', h, Ne.symm h]
      · simp [mapErase, mapGet, hk, hk', h, Ne.symm h, ih]

theorem mapSet_self_of_get (m : GoMap) (k : String) (v : GoVal)
    (h : mapGet m k = some v) : mapSet m k v = m := by
  induction m with
  | nil => simp [mapGet] at h
  | cons kv rest ih =>
    obtain ⟨k1, v1⟩ := kv
    by_cases hk : k1 = k
    · simp [mapGet, hk] at h
      simp [mapSet, hk, h]
    · simp [mapGet, hk] at h
      simp [mapSet, hk, ih h]

theorem string_append_assoc (a b c : String) : a ++ b ++ c = a ++ (b ++ c) := by
  obtain ⟨a⟩ := a
  obtain ⟨b⟩ := b
  obtain ⟨c⟩ := c
  show String.mk (a ++ b ++ c) = String.mk (a ++ (b ++ c))
  exact congrArg String.mk (List.append_assoc a b c)

/-! ## Dynamic configuration (`internal/config`) -/

/-- `config.DynamicConfig`: configuration parameters from a GET request. -/
structure DynamicConfig where
  server : String
  serverPort : Int
  wsPath : String
  dnsServer : String
  dohServer : String
  tunAddress : String
  mixedPort : Int
  tunMTU : Int

/-- `config.DefaultDynamicConfig`: default values for dynamic configuration. -/
def DefaultDynamicConfig : DynamicConfig where
  server := "vless.example.com"
  serverPort := 443
  wsPath := "/websocket"
  dnsServer := "8.8.8.8"
  dohServer := "https://223.5.5.5/dns-query"
  tunAddress := "172.19.0.1/28"
  mixedPort := 2080
  tunMTU := 9000

/-- Go `strconv.Atoi`: an optional sign followed by one or more decimal
digits, with the value required to fit in a 64-bit `int`; every other
input yields an error (`none`). -/
def goAtoi (s : String) : Option Int :=
  let cs := s.toList
  let signDigits : Int × List Char :=
    match cs with
    | '-' :: rest => (-1, rest)
    | '+' :: rest => (1, rest)
    | _ => (1, cs)
  let sign := signDigits.1
  let ds := signDigits.2
  if ds ≠ [] ∧ ds.all Char.isDigit then
    let v : Int := sign * (ds.foldl (fun a c => a * 10 + (c.toNat - 48)) 0 : Nat)
    if -(2 ^ 63) ≤ v ∧ v ≤ 2 ^ 63 - 1 then some v else none
  else none

/-- URL query parameters in order of appearance
(a flattened Go `url.Values`). -/
abbrev Query := List (String × String)

/-- Go `url.Values.Get`: the first value associated to the key, or `""`
when the key is absent. -/
def queryGet : Query → String → String
  | [], _ => ""
  | (k, v) :: rest, key => if k = key then v else queryGet rest key

/-- Whether the query contains the key at all. -/
def queryHas (q : Query) (key : String) : Bool :=
  q.any (fun kv => kv.1 == key)

/-- `config.ParseDynamicConfig`: parses dynamic configuration from URL
query parameters, starting from the defaults. -/
def ParseDynamicConfig (query : Query) : DynamicConfig :=
  let config := DefaultDynamicConfig
  let config :=
    let server := queryGet query "server"
    if server ≠ "" then { config with server := server } else config
  let config :=
    let port := queryGet query "port"
    if port ≠ "" then
      match goAtoi port with
      | some p => { config with serverPort := p }
      | none => config
    else config
  let config :=
    let wsPath := queryGet query "ws-path"
    if wsPath ≠ "" then { config with wsPath := wsPath } else config
  let config :=
    let dnsServer := queryGet query "dns-server"
    if dnsServer ≠ "" then { config with dnsServer := dnsServer } else config
  let config :=
    let dohServer := queryGet query "doh-server"
    if dohServer ≠ "" then { config with dohServer := dohServer } else config
  let config :=
    let tunAddress := queryGet query "tun-address"
    if tunAddress ≠ "" then { config with tunAddress := tunAddress } else config
  let config :=
    let mixedPort := queryGet query "mixed-port"
    if mixedPort ≠ "" then
      match goAtoi mixedPort with
      | some mp => { config with mixedPort := mp }
      | none => config
    else config
  let config :=
    let tunMTU := queryGet query "tun-mtu"
    if tunMTU ≠ "" then
      match goAtoi tunMTU with
      | some mtu => { config with tunMTU := mtu }
      | none => config
    else config
  config

/-! ## `utils.GenerateVlessURL` -/

/-- `utils.GenerateVlessURL`: generates a VLESS URL from a template
configuration.  The `fmt.Sprintf` call is rendered as string
concatenation with `%d` printing the `int` in decimal. -/
def GenerateVlessURL (template : GoMap) (uuid : String) : Except String String :=
  match mapGet template "outbounds" with
  | some (.arr outbounds) =>
    match outbounds with
    | [] => .error "invalid outbounds configuration"
    | first :: _ =>
      match first with
      | .obj outbound =>
        match mapGet outbound "server" with
        | some (.str server) =>
          -- server_port could be int or float64; anything else falls back
          let serverPort : Int :=
            match mapGet outbound "server_port" with
            | some (.int v) => v
            | some (.float v) => v
            | _ => 443
          match mapGet outbound "transport" with
          | some (.obj transport) =>
            match mapGet transport "path" with
            | some (.str path) =>
              match mapGet transport "headers" with
              | some (.obj headers) =>
                match mapGet headers "Host" with
                | some (.str host) =>
                  .ok ("vless://" ++ uuid ++ "@" ++ server ++ ":" ++
                    toString serverPort ++ "?type=ws&path=" ++ path ++
                    "&host=" ++ host ++ "&security=tls&fp=chrome")
                | _ => .error "invalid host configuration"
              | _ => .error "invalid headers configuration"
            | _ => .error "invalid path configuration"
          | _ => .error "invalid transport configuration"
        | _ => .error "invalid server configuration"
      | _ => .error "invalid outbound configuration"
  | _ => .error "invalid outbounds configuration"

/-! ## Deep copy (`utils.DeepCopyMap`, `Manager.deepCopyMap`) -/

mutual

/-- Type switch of the deep copy: maps and slices are copied recursively,
every other value (strings, numbers, booleans, nil, `[]string`) is copied
as the default case. -/
def deepCopyVal : GoVal → GoVal
  | .obj m => .obj (deepCopyMap m)
  | .arr l => .arr (deepCopySlice l)
  | v => v

/-- `deepCopyMap`: deep copy of a `map[string]interface{}`. -/
def deepCopyMap : GoMap → GoMap
  | [] => []
  | (k, v) :: rest => (k, deepCopyVal v) :: deepCopyMap rest

/-- `deepCopySlice`: deep copy of a `[]interface{}`. -/
def deepCopySlice : List GoVal → List GoVal
  | [] => []
  | v :: rest => deepCopyVal v :: deepCopySlice rest

end

/-! ## `templates.Manager` -/

/-- The manager's `templates` field: one parsed JSON document per type. -/
abbrev Manager := List (String × GoMap)

/-- Go map read `m.templates[templateType]`. -/
def lookupTemplate : Manager → String → Option GoMap
  | [], _ => none
  | (k, t) :: rest, key => if k = key then some t else lookupTemplate rest key

/-- Go map write `m.templates[templateType] = template`. -/
def storeTemplate : Manager → String → GoMap → Manager
  | [], key, t => [(key, t)]
  | (k, u) :: rest, key, t =>
      if k = key then (key, t) :: rest else (k, u) :: storeTemplate rest key t

/-- `Manager.LoadTemplates`: loads each parsed template document under its
type (file reading and JSON decoding are the environment; the loop body
`m.templates[templateType] = template` is what is embedded). -/
def LoadTemplates (ts : List (String × GoMap)) : Manager :=
  ts.foldl (fun m p => storeTemplate m p.1 p.2) []

/-- `Manager.GetTemplate`: a deep copy of the stored template, or `none`
when the type is unknown. -/
def GetTemplate (m : Manager) (templateType : String) : Option GoMap :=
  match lookupTemplate m templateType with
  | none => none
  | some template => some (deepCopyMap template)

/-- `Manager.GetTemplateTypes`: all available template types. -/
def GetTemplateTypes (m : Manager) : List String := m.map Prod.fst

/-! ## `Manager.updateTemplateWithDynamicConfig` (pure form)

The Go function mutates nested maps reached from the template map.
Here each in-place mutation is rendered as rebuilding the enclosing
containers, which is observationally identical for a tree-shaped
template (JSON decoding cannot produce sharing or cycles). -/

/-- Transport section: `transport["path"] = cfg.WSPath` and
`headers["Host"] = cfg.Server` when the headers map exists. -/
def updTransport (transport : GoMap) (cfg : DynamicConfig) : GoMap :=
  let transport := mapSet transport "path" (.str cfg.wsPath)
  match mapGet transport "headers" with
  | some (.obj headers) =>
      mapSet transport "headers" (.obj (mapSet headers "Host" (.str cfg.server)))
  | _ => transport

/-- Transport stage of the outbound update: recurse into the transport
map when it exists. -/
def updTransportStage (outbound : GoMap) (cfg : DynamicConfig) : GoMap :=
  match mapGet outbound "transport" with
  | some (.obj transport) =>
      mapSet outbound "transport" (.obj (updTransport transport cfg))
  | _ => outbound

/-- TLS stage of the outbound update: overwrite `tls.server_name` only
when the tls map exists and already has a `server_name` key. -/
def updTLS (outbound : GoMap) (cfg : DynamicConfig) : GoMap :=
  match mapGet outbound "tls" with
  | some (.obj tls) =>
      if (mapGet tls "server_name").isSome then
        mapSet outbound "tls" (.obj (mapSet tls "server_name" (.str cfg.server)))
      else outbound
  | _ => outbound

/-- First-outbound section: server, server_port, transport, and the TLS
server name when it exists (the Go statements in source order). -/
def updOutbound (outbound : GoMap) (cfg : DynamicConfig) : GoMap :=
  updTLS (updTransportStage
    (mapSet (mapSet outbound "server" (.str cfg.server))
      "server_port" (.int cfg.serverPort)) cfg) cfg

/-- `template["outbounds"]` section of `updateTemplateWithDynamicConfig`. -/
def updOutbounds (template : GoMap) (cfg : DynamicConfig) : GoMap :=
  match mapGet template "outbounds" with
  | some (.arr (first :: rest)) =>
      match first with
      | .obj outbound =>
          mapSet template "outbounds" (.arr (.obj (updOutbound outbound cfg) :: rest))
      | _ => template
  | _ => template

/-- One DNS server entry: `server["address"]` is overwritten when the
entry is a map. -/
def updDNSServer (v : GoVal) (address : String) : GoVal :=
  match v with
  | .obj server => .obj (mapSet server "address" (.str address))
  | _ => v

/-- `template["dns"]` section: requires `len(servers) >= 2` and then
overwrites the addresses of the first two server entries. -/
def updDNS (template : GoMap) (cfg : DynamicConfig) : GoMap :=
  match mapGet template "dns" with
  | some (.obj dns) =>
      match mapGet dns "servers" with
      | some (.arr (s0 :: s1 :: rest)) =>
          mapSet template "dns" (.obj (mapSet dns "servers"
            (.arr (updDNSServer s0 cfg.dnsServer ::
                   updDNSServer s1 cfg.dohServer :: rest))))
      | _ => template
  | _ => template

/-- TUN inbound entry: `inbound["inet4_address"] = []string{cfg.TunAddress}`
and `inbound["mtu"] = cfg.TunMTU`. -/
def updInbound0 (v : GoVal) (cfg : DynamicConfig) : GoVal :=
  match v with
  | .obj inbound =>
      .obj (mapSet (mapSet inbound "inet4_address" (.strArr [cfg.tunAddress]))
        "mtu" (.int cfg.tunMTU))
  | _ => v

/-- Mixed inbound entry: `inboundMixed["listen_port"] = cfg.MixedPort`. -/
def updInbound1 (v : GoVal) (cfg : DynamicConfig) : GoVal :=
  match v with
  | .obj inboundMixed => .obj (mapSet inboundMixed "listen_port" (.int cfg.mixedPort))
  | _ => v

/-- `template["inbounds"]` section: entry 0 when `len > 0`, entry 1 when
`len > 1`. -/
def updInbounds (template : GoMap) (cfg : DynamicConfig) : GoMap :=
  match mapGet template "inbounds" with
  | some (.arr inbounds) =>
      let inbounds :=
        match inbounds with
        | first :: rest => updInbound0 first cfg :: rest
        | [] => inbounds
      let inbounds :=
        match inbounds with
        | first :: second :: rest => first :: updInbound1 second cfg :: rest
        | _ => inbounds
      mapSet template "inbounds" (.arr inbounds)
  | _ => template

/-- `Manager.updateTemplateWithDynamicConfig`: the three sections run in
sequence on the same template. -/
def updateTemplateWithDynamicConfig (template : GoMap) (cfg : DynamicConfig) : GoMap :=
  updInbounds (updDNS (updOutbounds template cfg) cfg) cfg

/-- The UUID write at the end of `Manager.GenerateConfig`: sets
`outbound["uuid"]` when the first outbound's `type` equals `"vless"`. -/
def setUUID (template : GoMap) (uuid : String) : GoMap :=
  match mapGet template "outbounds" with
  | some (.arr (first :: rest)) =>
      match first with
      | .obj outbound =>
          match mapGet outbound "type" with
          | some (.str "vless") =>
              mapSet template "outbounds"
                (.arr (.obj (mapSet outbound "uuid" (.str uuid)) :: rest))
          | _ => template
      | _ => template
  | _ => template

/-- `Manager.GenerateConfig`: look the template up (deep-copying it),
fail when the type is unknown, then apply the dynamic configuration and
the UUID. -/
def GenerateConfig (m : Manager) (templateType uuid : String)
    (cfg : DynamicConfig) : Except String GoMap :=
  match GetTemplate m templateType with
  | none => .error ("template type " ++ templateType ++ " not found")
  | some template =>
      .ok (setUUID (updateTemplateWithDynamicConfig template cfg) uuid)

/-! ## Handlers (`internal/handlers`) -/

/-- The health check response document (`timestamp` is the formatted
current time, passed in by the environment). -/
structure HealthResponse where
  status : String
  timestamp : String
  service : String
  version : String
  templates : List String

/-- `Handler.HealthHandler`: the fixed JSON status document. -/
def HealthHandler (m : Manager) (now : String) : HealthResponse :=
  { status := "healthy"
    timestamp := now
    service := "vless-generator"
    version := "1.0.0"
    templates := GetTemplateTypes m }

/-- An HTTP response as produced by the QR code handler. -/
inductive HTTPResponse where
  | methodNotAllowed : HTTPResponse
  | badRequest : String → HTTPResponse
  | internalError : String → HTTPResponse
  | pngImage : List Nat → HTTPResponse

/-- The HTTP status code of a response. -/
def statusCode : HTTPResponse → Nat
  | .methodNotAllowed => 405
  | .badRequest _ => 400
  | .internalError _ => 500
  | .pngImage _ => 200

/-- The Content-Type header set on a response. -/
def responseContentType : HTTPResponse → String
  | .pngImage _ => "image/png"
  | _ => "text/plain"

/-- Go `strings.HasPrefix s pre`: true when the first `len(pre)` bytes
of `s` equal `pre`. -/
def goStartsWith (s pre : String) : Bool :=
  s.toList.take pre.toList.length == pre.toList

/-- `Handler.QRCodeHandler`.  `qrEncode` models the third-party
`qrcode.Encode(url, qrcode.Medium, 256)` call; `formParseOk` models
`r.ParseMultipartForm` succeeding; `urlValue` is the extracted `url`
form value, `""` when missing (all three extraction methods in the
source return `""` for a missing field). -/
def QRCodeHandler (qrEncode : String → Except String (List Nat))
    (method : String) (formParseOk : Bool) (urlValue : String) : HTTPResponse :=
  if method ≠ "POST" then .methodNotAllowed
  else if ¬formParseOk then .badRequest "Invalid form data"
  else if urlValue = "" then .badRequest "URL parameter is required"
  else if ¬(goStartsWith urlValue "vless://") then .badRequest "Invalid VLESS URL"
  else
    match qrEncode urlValue with
    | .error _ => .internalError "Failed to generate QR code"
    | .ok qr => .pngImage qr

/-! ## Field masks for the frame property (C3)

`eraseDynamicFields` removes exactly the fields `GenerateConfig` is
specified to overwrite: outbounds[0].{server, server_port, uuid},
outbounds[0].transport.path, outbounds[0].transport.headers.Host,
outbounds[0].tls.server_name, dns.servers[0].address,
dns.servers[1].address, inbounds[0].{inet4_address, mtu},
inbounds[1].listen_port.  Two configurations agree outside those fields
exactly when their erasures are equal. -/

def eraseTransport (transport : GoMap) : GoMap :=
  let transport := mapErase transport "path"
  match mapGet transport "headers" with
  | some (.obj headers) => mapSet transport "headers" (.obj (mapErase headers "Host"))
  | _ => transport

def eraseTransportStage (outbound : GoMap) : GoMap :=
  match mapGet outbound "transport" with
  | some (.obj transport) => mapSet outbound "transport" (.obj (eraseTransport transport))
  | _ => outbound

def eraseTLSStage (outbound : GoMap) : GoMap :=
  match mapGet outbound "tls" with
  | some (.obj tls) => mapSet outbound "tls" (.obj (mapErase tls "server_name"))
  | _ => outbound

/-- The erase chain for the scalar outbound fields overwritten by the
update. -/
def eraseOutboundScalars (outbound : GoMap) : GoMap :=
  mapErase (mapErase (mapErase outbound "server") "server_port") "uuid"

def eraseOutbound (outbound : GoMap) : GoMap :=
  eraseTLSStage (eraseTransportStage (eraseOutboundScalars outbound))

def eraseOutbounds (template : GoMap) : GoMap :=
  match mapGet template "outbounds" with
  | some (.arr (first :: rest)) =>
      match first with
      | .obj outbound =>
          mapSet template "outbounds" (.arr (.obj (eraseOutbound outbound) :: rest))
      | _ => template
  | _ => template

def eraseDNSServer : GoVal → GoVal
  | .obj server => .obj (mapErase server "address")
  | v => v

def eraseDNS (template : GoMap) : GoMap :=
  match mapGet template "dns" with
  | some (.obj dns) =>
      match mapGet dns "servers" with
      | some (.arr (s0 :: s1 :: rest)) =>
          mapSet template "dns" (.obj (mapSet dns "servers"
            (.arr (eraseDNSServer s0 :: eraseDNSServer s1 :: rest))))
      | _ => template
  | _ => template

def eraseInbound0 : GoVal → GoVal
  | .obj inbound => .obj (mapErase (mapErase inbound "inet4_address") "mtu")
  | v => v

def eraseInbound1 : GoVal → GoVal
  | .obj inboundMixed => .obj (mapErase inboundMixed "listen_port")
  | v => v

def eraseInbounds (template : GoMap) : GoMap :=
  match mapGet template "inbounds" with
  | some (.arr inbounds) =>
      let inbounds :=
        match inbounds with
        | first :: rest => eraseInbound0 first :: rest
        | [] => inbounds
      let inbounds :=
        match inbounds with
        | first :: second :: rest => first :: eraseInbound1 second :: rest
        | _ => inbounds
      mapSet template "inbounds" (.arr inbounds)
  | _ => template

def eraseDynamicFields (template : GoMap) : GoMap :=
  eraseInbounds (eraseDNS (eraseOutbounds template))

/-! ## Claim theorems -/

/-- C1: for every config whose first outbound has server `"ex.com"`,
server_port `443`, transport path `"/ws"` and headers Host `"ex.com"`,
and every uuid string, `GenerateVlessURL` returns exactly
`vless://{uuid}@ex.com:443?type=ws&path=/ws&host=ex.com&security=tls&fp=chrome`. -/
theorem generateVlessURL_ex_format
    (template outbound transport headers : GoMap) (rest : List GoVal) (uuid : String)
    (hout : mapGet template "outbounds" = some (.arr (.obj outbound :: rest)))
    (hserver : mapGet outbound "server" = some (.str "ex.com"))
    (hport : mapGet outbound "server_port" = some (.int 443))
    (htr : mapGet outbound "transport" = some (.obj transport))
    (hpath : mapGet transport "path" = some (.str "/ws"))
    (hhd : mapGet transport "headers" = some (.obj headers))
    (hhost : mapGet headers "Host" = some (.str "ex.com")) :
    GenerateVlessURL template uuid =
      .ok ("vless://" ++ uuid ++
        "@ex.com:443?type=ws&path=/ws&host=ex.com&security=tls&fp=chrome") := by
  simp only [GenerateVlessURL, hout, hserver, hport, htr, hpath, hhd, hhost]
  simp only [string_append_assoc]
  congr 2

/-- A concrete template of the shape required by C1. -/
def exTemplate : GoMap :=
  [("outbounds", .arr [.obj
    [("server", .str "ex.com"), ("server_port", .int 443),
     ("transport", .obj
       [("path", .str "/ws"),
        ("headers", .obj [("Host", .str "ex.com")])])]])]

theorem generateVlessURL_ex_format_witness :
    GenerateVlessURL exTemplate "abc" =
      .ok ("vless://" ++ "abc" ++
        "@ex.com:443?type=ws&path=/ws&host=ex.com&security=tls&fp=chrome") :=
  generateVlessURL_ex_format exTemplate _ _ _ _ "abc" rfl rfl rfl rfl rfl rfl rfl

/-- C10: when `outbounds[0].server_port` is present but neither an `int`
nor a `float64`, `GenerateVlessURL` does not fail: it substitutes the
fallback port 443 and succeeds, provided the required string fields are
present. -/
theorem generateVlessURL_port_fallback
    (template outbound transport headers : GoMap) (rest : List GoVal)
    (uuid server path host : String) (v : GoVal)
    (hout : mapGet template "outbounds" = some (.arr (.obj outbound :: rest)))
    (hserver : mapGet outbound "server" = some (.str server))
    (hport : mapGet outbound "server_port" = some v)
    (hvint : ∀ n : Int, v ≠ .int n)
    (hvfloat : ∀ n : Int, v ≠ .float n)
    (htr : mapGet outbound "transport" = some (.obj transport))
    (hpath : mapGet transport "path" = some (.str path))
    (hhd : mapGet transport "headers" = some (.obj headers))
    (hhost : mapGet headers "Host" = some (.str host)) :
    GenerateVlessURL template uuid =
      .ok ("vless://" ++ uuid ++ "@" ++ server ++ ":" ++ "443" ++
        "?type=ws&path=" ++ path ++ "&host=" ++ host ++
        "&security=tls&fp=chrome") := by
  simp only [GenerateVlessURL, hout, hserver, hport, htr, hpath, hhd, hhost]
  cases v with
  | int n => exact absurd rfl (hvint n)
  | float n => exact absurd rfl (hvfloat n)
  | str s => rfl
  | bool b => rfl
  | null => rfl
  | arr l => rfl
  | obj m => rfl
  | strArr l => rfl

/-- A concrete template whose `server_port` is the string `"443"`. -/
def strPortTemplate : GoMap :=
  [("outbounds", .arr [.obj
    [("server", .str "ex.com"), ("server_port", .str "443"),
     ("transport", .obj
       [("path", .str "/ws"),
        ("headers", .obj [("Host", .str "ex.com")])])]])]

theorem generateVlessURL_port_fallback_witness :
    GenerateVlessURL strPortTemplate "abc" =
      .ok ("vless://" ++ "abc" ++ "@" ++ "ex.com" ++ ":" ++ "443" ++
        "?type=ws&path=" ++ "/ws" ++ "&host=" ++ "ex.com" ++
        "&security=tls&fp=chrome") :=
  generateVlessURL_port_fallback strPortTemplate _ _ _ _ "abc" "ex.com" "/ws"
    "ex.com" (.str "443") rfl rfl rfl
    (fun n h => by cases h) (fun n h => by cases h) rfl rfl rfl rfl

/-! ### `ParseDynamicConfig` characterization -/

theorem matchAtoi_self {β : Type} (o : Option Int) (x : β) :
    (match o with | some _ => x | none => x) = x := by
  cases o <;> rfl

theorem matchAtoi_proj {β : Type} (f : DynamicConfig → β) (o : Option Int)
    (g : Int → DynamicConfig) (d : DynamicConfig) :
    f (match o with | some p => g p | none => d) =
      match o with | some p => f (g p) | none => f d := by
  cases o <;> rfl

theorem pdc_server (q : Query) :
    (ParseDynamicConfig q).server =
      if queryGet q "server" = "" then "vless.example.com" else queryGet q "server" := by
  simp only [ParseDynamicConfig, DefaultDynamicConfig]
  simp only [apply_ite DynamicConfig.server, matchAtoi_proj DynamicConfig.server]
  simp [matchAtoi_self, ite_self, ite_not]

theorem pdc_serverPort (q : Query) :
    (ParseDynamicConfig q).serverPort =
      if queryGet q "port" = "" then 443 else
        match goAtoi (queryGet q "port") with
        | some p => p
        | none => 443 := by
  simp only [ParseDynamicConfig, DefaultDynamicConfig]
  simp only [apply_ite DynamicConfig.serverPort, matchAtoi_proj DynamicConfig.serverPort]
  simp only [matchAtoi_self, ite_self]
  rcases goAtoi (queryGet q "port") with _ | p <;> simp [matchAtoi_self, ite_not, ite_self]

theorem pdc_wsPath (q : Query) :
    (ParseDynamicConfig q).wsPath =
      if queryGet q "ws-path" = "" then "/websocket" else queryGet q "ws-path" := by
  simp only [ParseDynamicConfig, DefaultDynamicConfig]
  simp only [apply_ite DynamicConfig.wsPath, matchAtoi_proj DynamicConfig.wsPath]
  simp [matchAtoi_self, ite_self, ite_not]

theorem pdc_dnsServer (q : Query) :
    (ParseDynamicConfig q).dnsServer =
      if queryGet q "dns-server" = "" then "8.8.8.8" else queryGet q "dns-server" := by
  simp only [ParseDynamicConfig, DefaultDynamicConfig]
  simp only [apply_ite DynamicConfig.dnsServer, matchAtoi_proj DynamicConfig.dnsServer]
  simp [matchAtoi_self, ite_self, ite_not]

theorem pdc_dohServer (q : Query) :
    (ParseDynamicConfig q).dohServer =
      if queryGet q "doh-server" = "" then "https://223.5.5.5/dns-query"
      else queryGet q "doh-server" := by
  simp only [ParseDynamicConfig, DefaultDynamicConfig]
  simp only [apply_ite DynamicConfig.dohServer, matchAtoi_proj DynamicConfig.dohServer]
  simp [matchAtoi_self, ite_self, ite_not]

theorem pdc_tunAddress (q : Query) :
    (ParseDynamicConfig q).tunAddress =
      if queryGet q "tun-address" = "" then "172.19.0.1/28"
      else queryGet q "tun-address" := by
  simp only [ParseDynamicConfig, DefaultDynamicConfig]
  simp only [apply_ite DynamicConfig.tunAddress, matchAtoi_proj DynamicConfig.tunAddress]
  simp [matchAtoi_self, ite_self, ite_not]

theorem pdc_mixedPort (q : Query) :
    (ParseDynamicConfig q).mixedPort =
      if queryGet q "mixed-port" = "" then 2080 else
        match goAtoi (queryGet q "mixed-port") with
        | some p => p
        | none => 2080 := by
  simp only [ParseDynamicConfig, DefaultDynamicConfig]
  simp only [apply_ite DynamicConfig.mixedPort, matchAtoi_proj DynamicConfig.mixedPort]
  simp only [matchAtoi_self, ite_self]
  rcases goAtoi (queryGet q "mixed-port") with _ | p <;> simp [matchAtoi_self, ite_not, ite_self]

theorem pdc_tunMTU (q : Query) :
    (ParseDynamicConfig q).tunMTU =
      if queryGet q "tun-mtu" = "" then 9000 else
        match goAtoi (queryGet q "tun-mtu") with
        | some p => p
        | none => 9000 := by
  simp only [ParseDynamicConfig, DefaultDynamicConfig]
  simp only [apply_ite DynamicConfig.tunMTU, matchAtoi_proj DynamicConfig.tunMTU]
  simp only [matchAtoi_self, ite_self]
  rcases goAtoi (queryGet q "tun-mtu") with _ | p <;> simp [matchAtoi_self, ite_not, ite_self]

/-- C5 counterexample: a query in which the key `server` is present but
with the empty value.  The claim says a present key always overwrites
the default (`server` would become `""`); the code keeps the default
`"vless.example.com"` because it tests the value, not key presence. -/
theorem parseDynamicConfig_present_empty_counterexample :
    queryHas [("server", "")] "server" = true ∧
    (ParseDynamicConfig [("server", "")]).server = "vless.example.com" ∧
    "vless.example.com" ≠ "" := by
  refine ⟨rfl, rfl, by decide⟩

/-- C5 (amended): `ParseDynamicConfig` overwrites a recognized field's
default exactly when the key's first value is non-empty (and, for the
integer fields, additionally parses as an integer); otherwise the
default is kept.  The function is total: no query is rejected, and
unrecognized keys or malformed integers are ignored. -/
theorem parseDynamicConfig_policy (q : Query) :
    ((ParseDynamicConfig q).server =
      if queryGet q "server" = "" then "vless.example.com" else queryGet q "server") ∧
    ((ParseDynamicConfig q).serverPort =
      if queryGet q "port" = "" then 443 else
        match goAtoi (queryGet q "port") with
        | some p => p
        | none => 443) ∧
    ((ParseDynamicConfig q).wsPath =
      if queryGet q "ws-path" = "" then "/websocket" else queryGet q "ws-path") ∧
    ((ParseDynamicConfig q).dnsServer =
      if queryGet q "dns-server" = "" then "8.8.8.8" else queryGet q "dns-server") ∧
    ((ParseDynamicConfig q).dohServer =
      if queryGet q "doh-server" = "" then "https://223.5.5.5/dns-query"
      else queryGet q "doh-server") ∧
    ((ParseDynamicConfig q).tunAddress =
      if queryGet q "tun-address" = "" then "172.19.0.1/28" else queryGet q "tun-address") ∧
    ((ParseDynamicConfig q).mixedPort =
      if queryGet q "mixed-port" = "" then 2080 else
        match goAtoi (queryGet q "mixed-port") with
        | some p => p
        | none => 2080) ∧
    ((ParseDynamicConfig q).tunMTU =
      if queryGet q "tun-mtu" = "" then 9000 else
        match goAtoi (queryGet q "tun-mtu") with
        | some p => p
        | none => 9000) :=
  ⟨pdc_server q, pdc_serverPort q, pdc_wsPath q, pdc_dnsServer q,
   pdc_dohServer q, pdc_tunAddress q, pdc_mixedPort q, pdc_tunMTU q⟩

/-! ### Deep copy returns a structurally equal value -/

mutual

theorem deepCopyVal_eq : (v : GoVal) → deepCopyVal v = v
  | .obj m => by simp [deepCopyVal, deepCopyMap_eq m]
  | .arr l => by simp [deepCopyVal, deepCopySlice_eq l]
  | .str _ => by simp [deepCopyVal]
  | .int _ => by simp [deepCopyVal]
  | .float _ => by simp [deepCopyVal]
  | .bool _ => by simp [deepCopyVal]
  | .null => by simp [deepCopyVal]
  | .strArr _ => by simp [deepCopyVal]

theorem deepCopyMap_eq : (m : GoMap) → deepCopyMap m = m
  | [] => by simp [deepCopyMap]
  | (k, v) :: rest => by simp [deepCopyMap, deepCopyVal_eq v, deepCopyMap_eq rest]

theorem deepCopySlice_eq : (l : List GoVal) → deepCopySlice l = l
  | [] => by simp [deepCopySlice]
  | v :: rest => by simp [deepCopySlice, deepCopyVal_eq v, deepCopySlice_eq rest]

end

theorem getTemplate_eq_lookup (m : Manager) (ty : String) :
    GetTemplate m ty = lookupTemplate m ty := by
  unfold GetTemplate
  rcases h : lookupTemplate m ty with _ | t <;> simp [deepCopyMap_eq]

/-- C6: `GenerateConfig` fails exactly when the template type is unknown;
for a loaded template of any shape it succeeds, and missing nested
sections mean the corresponding writes are skipped silently (a template
with no `outbounds`, `dns` or `inbounds` key is returned unchanged). -/
theorem generateConfig_error_iff (m : Manager) (ty uuid : String) (cfg : DynamicConfig) :
    ((∃ e, GenerateConfig m ty uuid cfg = .error e) ↔ lookupTemplate m ty = none) ∧
    (∀ t, lookupTemplate m ty = some t →
      mapGet t "outbounds" = none → mapGet t "dns" = none → mapGet t "inbounds" = none →
      GenerateConfig m ty uuid cfg = .ok t) := by
  constructor
  · unfold GenerateConfig
    rw [getTemplate_eq_lookup]
    rcases h : lookupTemplate m ty with _ | t
    · simp
    · simp
  · intro t ht hout hdns hin
    unfold GenerateConfig
    rw [getTemplate_eq_lookup, ht]
    have hupd : updateTemplateWithDynamicConfig t cfg = t := by
      unfold updateTemplateWithDynamicConfig updOutbounds
      rw [hout]
      unfold updDNS
      rw [hdns]
      unfold updInbounds
      rw [hin]
    show Except.ok (setUUID (updateTemplateWithDynamicConfig t cfg) uuid) = .ok t
    rw [hupd]
    unfold setUUID
    rw [hout]

theorem generateConfig_error_iff_witness :
    GenerateConfig [("vless", [("route", GoVal.null)])] "vless" "u"
      DefaultDynamicConfig = .ok [("route", GoVal.null)] :=
  (generateConfig_error_iff [("vless", [("route", GoVal.null)])] "vless" "u"
    DefaultDynamicConfig).2 [("route", GoVal.null)] rfl rfl rfl rfl

/-! ### Required fields for `GenerateVlessURL` (C7) -/

/-- The first outbound, when `outbounds` is a non-empty `[]interface{}`
whose first element is a map. -/
def firstOutbound (t : GoMap) : Option GoMap :=
  match mapGet t "outbounds" with
  | some (.arr (first :: _)) =>
      match first with
      | .obj outbound => some outbound
      | _ => none
  | _ => none

/-- Whether an optional value is present and a string. -/
def isStrVal : Option GoVal → Bool
  | some (.str _) => true
  | _ => false

def outboundsOk (t : GoMap) : Bool := (firstOutbound t).isSome

def serverOk (t : GoMap) : Bool :=
  match firstOutbound t with
  | some outbound => isStrVal (mapGet outbound "server")
  | none => false

def transportOf (t : GoMap) : Option GoMap :=
  match firstOutbound t with
  | some outbound =>
      match mapGet outbound "transport" with
      | some (.obj transport) => some transport
      | _ => none
  | none => none

def pathOk (t : GoMap) : Bool :=
  match transportOf t with
  | some transport => isStrVal (mapGet transport "path")
  | none => false

def headersOf (t : GoMap) : Option GoMap :=
  match transportOf t with
  | some transport =>
      match mapGet transport "headers" with
      | some (.obj headers) => some headers
      | _ => none
  | none => none

def hostOk (t : GoMap) : Bool :=
  match headersOf t with
  | some headers => isStrVal (mapGet headers "Host")
  | none => false

/-- Whether an `Except` result is a success. -/
def exceptOk {α β : Type} : Except α β → Bool
  | .ok _ => true
  | .error _ => false

theorem generateVlessURL_ok_eq (t : GoMap) (uuid : String) :
    exceptOk (GenerateVlessURL t uuid) =
      (outboundsOk t && serverOk t && pathOk t && hostOk t) := by
  simp only [GenerateVlessURL, outboundsOk, serverOk, pathOk, hostOk,
    firstOutbound, transportOf, headersOf]
  rcases h1 : mapGet t "outbounds" with _ | v1
  · rfl
  · cases v1 <;> try rfl
    case arr l =>
      rcases l with _ | ⟨first, rest⟩
      · rfl
      · cases first <;> try rfl
        case obj ob =>
          simp only [Option.isSome]
          rcases h2 : mapGet ob "server" with _ | v2
          · simp [isStrVal, exceptOk]
          · cases v2 <;> try (simp [isStrVal, exceptOk])
            case str s =>
              rcases h3 : mapGet ob "transport" with _ | v3
              · simp [isStrVal, exceptOk]
              · cases v3 <;> try (simp [isStrVal, exceptOk])
                case obj tr =>
                  rcases h4 : mapGet tr "path" with _ | v4
                  · simp [isStrVal, exceptOk]
                  · cases v4 <;> try (simp [isStrVal, exceptOk])
                    case str p =>
                      rcases h5 : mapGet tr "headers" with _ | v5
                      · simp [isStrVal, exceptOk]
                      · cases v5 <;> try (simp [isStrVal, exceptOk])
                        case obj hd =>
                          rcases h6 : mapGet hd "Host" with _ | v6
                          · simp [isStrVal, exceptOk]
                          · cases v6 <;> simp [isStrVal, exceptOk]

/-- C7: `GenerateVlessURL` returns an error exactly when `outbounds` is
missing, empty or its first element is not a map, or one of the required
string fields `server`, `transport.path`, `transport.headers.Host` is
missing or not a string. -/
theorem generateVlessURL_error_iff (t : GoMap) (uuid : String) :
    (∃ e, GenerateVlessURL t uuid = .error e) ↔
      ¬(outboundsOk t = true ∧ serverOk t = true ∧ pathOk t = true ∧
        hostOk t = true) := by
  have h := generateVlessURL_ok_eq t uuid
  rcases hg : GenerateVlessURL t uuid with e | s <;> rw [hg] at h
  · simp only [exceptOk] at h
    refine ⟨fun _ => ?_, fun _ => ⟨e, rfl⟩⟩
    rintro ⟨h1, h2, h3, h4⟩
    rw [h1, h2, h3, h4] at h
    simp at h
  · simp only [exceptOk] at h
    constructor
    · rintro ⟨e, he⟩
      cases he
    · intro hcon
      exact absurd ⟨by simp_all, by simp_all, by simp_all, by simp_all⟩ hcon

/-- C9: the `/health` response's `templates` field is exactly
`GetTemplateTypes`, which after startup contains precisely the loaded
template types and is non-empty whenever at least one template was
loaded. -/
theorem healthHandler_templates (m : Manager) (now : String) :
    ((HealthHandler m now).templates = GetTemplateTypes m) ∧
    (∀ ts, m = LoadTemplates ts →
      ((∀ x, x ∈ GetTemplateTypes m ↔ x ∈ ts.map Prod.fst) ∧
       (ts ≠ [] → GetTemplateTypes m ≠ []))) := by
  refine ⟨rfl, ?_⟩
  rintro ts rfl
  have key : ∀ (ts : List (String × GoMap)) (acc : Manager) (x : String),
      x ∈ GetTemplateTypes (ts.foldl (fun m p => storeTemplate m p.1 p.2) acc) ↔
        x ∈ GetTemplateTypes acc ∨ x ∈ ts.map Prod.fst := by
    intro ts
    induction ts with
    | nil => intro acc x; simp
    | cons p rest ih =>
      intro acc x
      have hstep : ∀ (acc : Manager),
          x ∈ GetTemplateTypes (storeTemplate acc p.1 p.2) ↔
            x = p.1 ∨ x ∈ GetTemplateTypes acc := by
        intro acc
        induction acc with
        | nil => simp [storeTemplate, GetTemplateTypes]
        | cons q rest2 ih2 =>
          obtain ⟨k1, t1⟩ := q
          by_cases hk : k1 = p.1
          · subst hk
            simp [storeTemplate, GetTemplateTypes]
          · simp only [storeTemplate, hk, if_false, GetTemplateTypes,
              List.map_cons, List.mem_cons] at ih2 ⊢
            rw [ih2]
            tauto
      rw [List.foldl_cons, ih, hstep]
      simp only [List.map_cons, List.mem_cons]
      tauto
  constructor
  · intro x
    simp only [LoadTemplates]
    rw [key ts [] x]
    simp [GetTemplateTypes]
  · intro hne
    rcases ts with _ | ⟨p, rest⟩
    · exact absurd rfl hne
    · intro hempty
      have : p.1 ∈ GetTemplateTypes (LoadTemplates (p :: rest)) := by
        simp only [LoadTemplates]
        rw [key (p :: rest) [] p.1]
        simp
      rw [hempty] at this
      simp at this

theorem healthHandler_templates_witness :
    (HealthHandler (LoadTemplates [("vless", [("route", GoVal.null)])]) "t").templates =
      GetTemplateTypes (LoadTemplates [("vless", [("route", GoVal.null)])]) ∧
    GetTemplateTypes (LoadTemplates [("vless", [("route", GoVal.null)])]) ≠ [] := by
  have h := healthHandler_templates
    (LoadTemplates [("vless", [("route", GoVal.null)])]) "t"
  exact ⟨h.1, ((h.2 [("vless", [("route", GoVal.null)])] rfl).2) (by simp)⟩

/-- C8: a POST to `/qrcode` whose `url` form value does not start with
`vless://` yields status 400; a value that does start with `vless://`
yields the PNG body produced by the QR encoder, served as `image/png`
(non-empty whenever the third-party encoder produces bytes). -/
theorem qrCodeHandler_spec (qrEncode : String → Except String (List Nat))
    (url : String) :
    (goStartsWith url "vless://" = false →
      statusCode (QRCodeHandler qrEncode "POST" true url) = 400) ∧
    (∀ bytes, goStartsWith url "vless://" = true → qrEncode url = .ok bytes →
      bytes ≠ [] →
      QRCodeHandler qrEncode "POST" true url = .pngImage bytes ∧
      responseContentType (QRCodeHandler qrEncode "POST" true url) = "image/png" ∧
      bytes ≠ []) := by
  constructor
  · intro hpre
    by_cases hu : url = ""
    · simp [QRCodeHandler, hu, statusCode]
    · simp [QRCodeHandler, hu, hpre, statusCode]
  · intro bytes hpre henc hne
    have hu : url ≠ "" := by
      intro h
      rw [h] at hpre
      have hfalse : goStartsWith "" "vless://" = false := rfl
      rw [hfalse] at hpre
      exact Bool.noConfusion hpre
    simp [QRCodeHandler, hu, hpre, henc, responseContentType, hne]

theorem qrCodeHandler_spec_witness :
    statusCode (QRCodeHandler (fun _ => .ok [1]) "POST" true "http://evil") = 400 ∧
    QRCodeHandler (fun _ => .ok [1]) "POST" true "vless://x" = .pngImage [1] := by
  refine ⟨(qrCodeHandler_spec (fun _ => .ok [1]) "http://evil").1 (by rfl), ?_⟩
  exact ((qrCodeHandler_spec (fun _ => .ok [1]) "vless://x").2 [1] (by rfl) rfl
    (by decide)).1

/-! ### Effect of the dynamic update on the outbound fields (C4) -/

theorem mapGet_set_ne (k k' : String) (h : k ≠ k') (m : GoMap) (v : GoVal) :
    mapGet (mapSet m k v) k' = mapGet m k' := mapGet_mapSet_ne m k k' v h

theorem updTransport_path (tr : GoMap) (cfg : DynamicConfig) :
    mapGet (updTransport tr cfg) "path" = some (.str cfg.wsPath) := by
  simp only [updTransport]
  rcases h : mapGet (mapSet tr "path" (GoVal.str cfg.wsPath)) "headers" with _ | v
  · exact mapGet_mapSet_self tr "path" _
  · cases v <;>
      simp [mapGet_mapSet_self, mapGet_set_ne "headers" "path" (by decide)]

theorem updTransport_headers (tr hd : GoMap) (cfg : DynamicConfig)
    (hhd : mapGet tr "headers" = some (.obj hd)) :
    mapGet (updTransport tr cfg) "headers" =
      some (.obj (mapSet hd "Host" (.str cfg.server))) := by
  simp only [updTransport]
  have h1 : mapGet (mapSet tr "path" (GoVal.str cfg.wsPath)) "headers" =
      some (.obj hd) := by
    rw [mapGet_set_ne "path" "headers" (by decide)]
    exact hhd
  rw [h1]
  exact mapGet_mapSet_self _ "headers" _

theorem updTransportStage_get (ob : GoMap) (cfg : DynamicConfig) (k : String)
    (hk : k ≠ "transport") :
    mapGet (updTransportStage ob cfg) k = mapGet ob k := by
  simp only [updTransportStage]
  rcases h : mapGet ob "transport" with _ | v
  · rfl
  · cases v <;> try rfl
    case obj tr => exact mapGet_set_ne "transport" k (Ne.symm hk) ob _

theorem updTransportStage_transport (ob tr : GoMap) (cfg : DynamicConfig)
    (htr : mapGet ob "transport" = some (.obj tr)) :
    mapGet (updTransportStage ob cfg) "transport" =
      some (.obj (updTransport tr cfg)) := by
  simp only [updTransportStage, htr]
  exact mapGet_mapSet_self ob "transport" _

theorem updTLS_get (ob : GoMap) (cfg : DynamicConfig) (k : String)
    (hk : k ≠ "tls") :
    mapGet (updTLS ob cfg) k = mapGet ob k := by
  simp only [updTLS]
  rcases h : mapGet ob "tls" with _ | v
  · rfl
  · cases v <;> try rfl
    case obj tls =>
      by_cases hs : (mapGet tls "server_name").isSome
      · simp only [hs, if_true]
        exact mapGet_set_ne "tls" k (Ne.symm hk) ob _
      · simp [hs]

theorem updOutbound_get (ob : GoMap) (cfg : DynamicConfig) (k : String)
    (hks : k ≠ "server") (hkp : k ≠ "server_port") (hkt : k ≠ "transport")
    (hktls : k ≠ "tls") :
    mapGet (updOutbound ob cfg) k = mapGet ob k := by
  simp only [updOutbound]
  rw [updTLS_get _ _ _ hktls, updTransportStage_get _ _ _ hkt,
    mapGet_set_ne "server_port" k (Ne.symm hkp),
    mapGet_set_ne "server" k (Ne.symm hks)]

theorem updOutbound_server (ob : GoMap) (cfg : DynamicConfig) :
    mapGet (updOutbound ob cfg) "server" = some (.str cfg.server) := by
  simp only [updOutbound]
  rw [updTLS_get _ _ _ (by decide), updTransportStage_get _ _ _ (by decide),
    mapGet_set_ne "server_port" "server" (by decide)]
  exact mapGet_mapSet_self ob "server" _

theorem updOutbound_server_port (ob : GoMap) (cfg : DynamicConfig) :
    mapGet (updOutbound ob cfg) "server_port" = some (.int cfg.serverPort) := by
  simp only [updOutbound]
  rw [updTLS_get _ _ _ (by decide), updTransportStage_get _ _ _ (by decide)]
  exact mapGet_mapSet_self _ "server_port" _

theorem updOutbound_transport (ob tr : GoMap) (cfg : DynamicConfig)
    (htr : mapGet ob "transport" = some (.obj tr)) :
    mapGet (updOutbound ob cfg) "transport" =
      some (.obj (updTransport tr cfg)) := by
  simp only [updOutbound]
  rw [updTLS_get _ _ _ (by decide)]
  apply updTransportStage_transport
  rw [mapGet_set_ne "server_port" "transport" (by decide),
    mapGet_set_ne "server" "transport" (by decide)]
  exact htr

theorem updOutbounds_eq (t ob : GoMap) (rest : List GoVal) (cfg : DynamicConfig)
    (hout : mapGet t "outbounds" = some (.arr (.obj ob :: rest))) :
    updOutbounds t cfg =
      mapSet t "outbounds" (.arr (.obj (updOutbound ob cfg) :: rest)) := by
  simp only [updOutbounds, hout]

theorem updDNS_get (t : GoMap) (cfg : DynamicConfig) (k : String)
    (hk : k ≠ "dns") : mapGet (updDNS t cfg) k = mapGet t k := by
  simp only [updDNS]
  rcases h1 : mapGet t "dns" with _ | v1
  · rfl
  · cases v1 <;> try rfl
    case obj dns =>
      show mapGet (match mapGet dns "servers" with
        | some (.arr (s0 :: s1 :: rest)) =>
            mapSet t "dns" (.obj (mapSet dns "servers"
              (.arr (updDNSServer s0 cfg.dnsServer ::
                     updDNSServer s1 cfg.dohServer :: rest))))
        | _ => t) k = mapGet t k
      rcases h2 : mapGet dns "servers" with _ | v2
      · rfl
      · cases v2 <;> try rfl
        case arr l =>
          rcases l with _ | ⟨s0, l1⟩
          · rfl
          · rcases l1 with _ | ⟨s1, l2⟩
            · rfl
            · exact mapGet_set_ne "dns" k (Ne.symm hk) t _

theorem updInbounds_get (t : GoMap) (cfg : DynamicConfig) (k : String)
    (hk : k ≠ "inbounds") : mapGet (updInbounds t cfg) k = mapGet t k := by
  simp only [updInbounds]
  rcases h1 : mapGet t "inbounds" with _ | v1
  · rfl
  · cases v1 <;> try rfl
    case arr l => exact mapGet_set_ne "inbounds" k (Ne.symm hk) t _

theorem setUUID_fields (x ob1 : GoMap) (rest : List GoVal) (uuid : String)
    (hx : mapGet x "outbounds" = some (.arr (.obj ob1 :: rest))) :
    ∃ ob2, mapGet (setUUID x uuid) "outbounds" = some (.arr (.obj ob2 :: rest)) ∧
      ∀ k, k ≠ "uuid" → mapGet ob2 k = mapGet ob1 k := by
  simp only [setUUID, hx]
  rcases h : mapGet ob1 "type" with _ | v
  · exact ⟨ob1, hx, fun k _ => rfl⟩
  · cases v <;> try exact ⟨ob1, hx, fun k _ => rfl⟩
    case str s =>
      by_cases hs : s = "vless"
      · subst hs
        refine ⟨mapSet ob1 "uuid" (.str uuid), ?_, ?_⟩
        · exact mapGet_mapSet_self x "outbounds" _
        · intro k hk
          exact mapGet_set_ne "uuid" k (Ne.symm hk) ob1 _
      · split
        · rename_i heq
          refine absurd ?_ hs
          injection heq with h1
          injection h1
        · exact ⟨ob1, hx, fun k _ => rfl⟩

theorem queryGet_of_not_has (q : Query) (k : String)
    (h : queryHas q k = false) : queryGet q k = "" := by
  induction q with
  | nil => rfl
  | cons kv rest ih =>
    simp only [queryHas, List.any_cons, Bool.or_eq_false_iff, beq_eq_false_iff_ne] at h
    obtain ⟨h1, h2⟩ := h
    simp only [queryGet, h1, if_false]
    exact ih (by simpa [queryHas] using h2)

/-- C4: with query `?server=ex.com&port=443&ws-path=/ws` the generated
config's first outbound has server `ex.com`, port `443`, transport path
`/ws`, and `transport.headers.Host` mirrors the server; every omitted
parameter yields the documented default of `DefaultDynamicConfig`. -/
theorem configPage_query_params
    (m : Manager) (ty uuid : String) (t outbound transport headers : GoMap)
    (rest : List GoVal) (c : GoMap)
    (ht : lookupTemplate m ty = some t)
    (hout : mapGet t "outbounds" = some (.arr (.obj outbound :: rest)))
    (htr : mapGet outbound "transport" = some (.obj transport))
    (hhd : mapGet transport "headers" = some (.obj headers))
    (hc : GenerateConfig m ty uuid (ParseDynamicConfig
        [("server", "ex.com"), ("port", "443"), ("ws-path", "/ws")]) = .ok c) :
    (∃ ob' rest', mapGet c "outbounds" = some (.arr (.obj ob' :: rest')) ∧
      mapGet ob' "server" = some (.str "ex.com") ∧
      mapGet ob' "server_port" = some (.int 443) ∧
      ∃ tr', mapGet ob' "transport" = some (.obj tr') ∧
        mapGet tr' "path" = some (.str "/ws") ∧
        ∃ hd', mapGet tr' "headers" = some (.obj hd') ∧
          mapGet hd' "Host" = some (.str "ex.com")) ∧
    (∀ q : Query,
      (queryHas q "server" = false → (ParseDynamicConfig q).server = "vless.example.com") ∧
      (queryHas q "port" = false → (ParseDynamicConfig q).serverPort = 443) ∧
      (queryHas q "ws-path" = false → (ParseDynamicConfig q).wsPath = "/websocket") ∧
      (queryHas q "dns-server" = false → (ParseDynamicConfig q).dnsServer = "8.8.8.8") ∧
      (queryHas q "doh-server" = false →
        (ParseDynamicConfig q).dohServer = "https://223.5.5.5/dns-query") ∧
      (queryHas q "tun-address" = false →
        (ParseDynamicConfig q).tunAddress = "172.19.0.1/28") ∧
      (queryHas q "mixed-port" = false → (ParseDynamicConfig q).mixedPort = 2080) ∧
      (queryHas q "tun-mtu" = false → (ParseDynamicConfig q).tunMTU = 9000)) := by
  constructor
  · unfold GenerateConfig at hc
    rw [getTemplate_eq_lookup, ht] at hc
    simp only [Except.ok.injEq] at hc
    subst hc
    have hx3 : mapGet (updateTemplateWithDynamicConfig t (ParseDynamicConfig
        [("server", "ex.com"), ("port", "443"), ("ws-path", "/ws")])) "outbounds" =
        some (.arr (.obj (updOutbound outbound (ParseDynamicConfig
          [("server", "ex.com"), ("port", "443"), ("ws-path", "/ws")])) :: rest)) := by
      unfold updateTemplateWithDynamicConfig
      rw [updInbounds_get _ _ _ (by decide), updDNS_get _ _ _ (by decide),
        updOutbounds_eq t outbound rest _ hout]
      exact mapGet_mapSet_self t "outbounds" _
    obtain ⟨ob2, hget, hpres⟩ := setUUID_fields _ _ rest uuid hx3
    refine ⟨ob2, rest, hget, ?_, ?_, ?_⟩
    · rw [hpres "server" (by decide), updOutbound_server]
      rfl
    · rw [hpres "server_port" (by decide), updOutbound_server_port]
      rfl
    · rw [hpres "transport" (by decide), updOutbound_transport outbound transport _ htr]
      refine ⟨_, rfl, ?_, ?_⟩
      · rw [updTransport_path]
        rfl
      · rw [updTransport_headers transport headers _ hhd]
        refine ⟨_, rfl, ?_⟩
        rw [mapGet_mapSet_self]
        rfl
  · intro q
    refine ⟨?_, ?_, ?_, ?_, ?_, ?_, ?_, ?_⟩ <;> intro h
    · rw [pdc_server q, queryGet_of_not_has q "server" h]
      simp
    · rw [pdc_serverPort q, queryGet_of_not_has q "port" h]
      simp
    · rw [pdc_wsPath q, queryGet_of_not_has q "ws-path" h]
      simp
    · rw [pdc_dnsServer q, queryGet_of_not_has q "dns-server" h]
      simp
    · rw [pdc_dohServer q, queryGet_of_not_has q "doh-server" h]
      simp
    · rw [pdc_tunAddress q, queryGet_of_not_has q "tun-address" h]
      simp
    · rw [pdc_mixedPort q, queryGet_of_not_has q "mixed-port" h]
      simp
    · rw [pdc_tunMTU q, queryGet_of_not_has q "tun-mtu" h]
      simp

/-- Extract the success value of a generated config (used by witnesses). -/
def getOk : Except String GoMap → GoMap
  | .ok c => c
  | .error _ => []

/-- A concrete well-shaped template for the C4 witness. -/
def c4Template : GoMap :=
  [("outbounds", .arr [.obj
    [("type", .str "vless"), ("server", .str "old"), ("server_port", .int 1),
     ("transport", .obj
       [("path", .str "/old"),
        ("headers", .obj [("Host", .str "old")])])]])]

theorem configPage_query_params_witness :
    (∃ ob' rest', mapGet (getOk (GenerateConfig [("vless", c4Template)] "vless" "u"
        (ParseDynamicConfig [("server", "ex.com"), ("port", "443"), ("ws-path", "/ws")])))
        "outbounds" = some (.arr (.obj ob' :: rest')) ∧
      mapGet ob' "server" = some (.str "ex.com") ∧
      mapGet ob' "server_port" = some (.int 443) ∧
      ∃ tr', mapGet ob' "transport" = some (.obj tr') ∧
        mapGet tr' "path" = some (.str "/ws") ∧
        ∃ hd', mapGet tr' "headers" = some (.obj hd') ∧
          mapGet hd' "Host" = some (.str "ex.com")) ∧
    (∀ q : Query,
      (queryHas q "server" = false → (ParseDynamicConfig q).server = "vless.example.com") ∧
      (queryHas q "port" = false → (ParseDynamicConfig q).serverPort = 443) ∧
      (queryHas q "ws-path" = false → (ParseDynamicConfig q).wsPath = "/websocket") ∧
      (queryHas q "dns-server" = false → (ParseDynamicConfig q).dnsServer = "8.8.8.8") ∧
      (queryHas q "doh-server" = false →
        (ParseDynamicConfig q).dohServer = "https://223.5.5.5/dns-query") ∧
      (queryHas q "tun-address" = false →
        (ParseDynamicConfig q).tunAddress = "172.19.0.1/28") ∧
      (queryHas q "mixed-port" = false → (ParseDynamicConfig q).mixedPort = 2080) ∧
      (queryHas q "tun-mtu" = false → (ParseDynamicConfig q).tunMTU = 9000)) :=
  configPage_query_params [("vless", c4Template)] "vless" "u" c4Template _ _ _ _
    (getOk (GenerateConfig [("vless", c4Template)] "vless" "u"
      (ParseDynamicConfig [("server", "ex.com"), ("port", "443"), ("ws-path", "/ws")])))
    rfl rfl rfl rfl rfl

/-! ### Map algebra for the frame property (C3) -/

theorem mapSet_mapSet_self (m : GoMap) (k : String) (v w : GoVal) :
    mapSet (mapSet m k v) k w = mapSet m k w := by
  induction m with
  | nil => simp [mapSet]
  | cons kv rest ih =>
    obtain ⟨k1, v1⟩ := kv
    by_cases h : k1 = k
    · simp [mapSet, h]
    · simp [mapSet, h, ih]

theorem mapSet_comm_of_present (m : GoMap) (k1 k2 : String) (v1 v2 : GoVal)
    (hne : k1 ≠ k2) (w : GoVal) (hp : mapGet m k1 = some w) :
    mapSet (mapSet m k2 v2) k1 v1 = mapSet (mapSet m k1 v1) k2 v2 := by
  induction m with
  | nil => simp [mapGet] at hp
  | cons kv rest ih =>
    obtain ⟨ka, va⟩ := kv
    by_cases h1 : ka = k1
    · have h2 : ka ≠ k2 := by rw [h1]; exact hne
      simp [mapSet, h1, h2, Ne.symm hne, hne]
    · by_cases h2 : ka = k2
      · simp [mapGet, h1] at hp
        simp [mapSet, h1, h2, Ne.symm hne, hne, ih hp]
      · simp [mapGet, h1] at hp
        simp [mapSet, h1, h2, ih hp]

theorem mapErase_set_ne (k k' : String) (h : k ≠ k') (m : GoMap) (v : GoVal) :
    mapErase (mapSet m k v) k' = mapSet (mapErase m k') k v :=
  mapErase_mapSet_ne m k k' v h

theorem mapErase_set_self (k : String) (m : GoMap) (v : GoVal) :
    mapErase (mapSet m k v) k = mapErase m k :=
  mapErase_mapSet_self m k v

theorem mapGet_erase_ne (k k' : String) (h : k ≠ k') (m : GoMap) :
    mapGet (mapErase m k) k' = mapGet m k' :=
  mapGet_mapErase_ne m k k' h

/-- Read-modify-write of one top-level key, the common shape of the
update and erase sections. -/
def withKey (k : String) (f : GoVal → GoVal) (t : GoMap) : GoMap :=
  match mapGet t k with
  | some v => mapSet t k (f v)
  | none => t

/-- `updOutbounds` as a transformation of the `outbounds` value. -/
def updOutVal (cfg : DynamicConfig) : GoVal → GoVal
  | .arr (.obj outbound :: rest) => .arr (.obj (updOutbound outbound cfg) :: rest)
  | v => v

/-- `eraseOutbounds` as a transformation of the `outbounds` value. -/
def eraseOutVal : GoVal → GoVal
  | .arr (.obj outbound :: rest) => .arr (.obj (eraseOutbound outbound) :: rest)
  | v => v

/-- `updDNS` as a transformation of the `dns` value. -/
def updDNSVal (cfg : DynamicConfig) : GoVal → GoVal
  | .obj dns =>
      match mapGet dns "servers" with
      | some (.arr (s0 :: s1 :: rest)) =>
          .obj (mapSet dns "servers"
            (.arr (updDNSServer s0 cfg.dnsServer ::
                   updDNSServer s1 cfg.dohServer :: rest)))
      | _ => .obj dns
  | v => v

/-- `eraseDNS` as a transformation of the `dns` value. -/
def eraseDNSVal : GoVal → GoVal
  | .obj dns =>
      match mapGet dns "servers" with
      | some (.arr (s0 :: s1 :: rest)) =>
          .obj (mapSet dns "servers"
            (.arr (eraseDNSServer s0 :: eraseDNSServer s1 :: rest)))
      | _ => .obj dns
  | v => v

/-- `updInbounds` as a transformation of the `inbounds` value. -/
def updInVal (cfg : DynamicConfig) : GoVal → GoVal
  | .arr inbounds =>
      let inbounds :=
        match inbounds with
        | first :: rest => updInbound0 first cfg :: rest
        | [] => inbounds
      let inbounds :=
        match inbounds with
        | first :: second :: rest => first :: updInbound1 second cfg :: rest
        | _ => inbounds
      .arr inbounds
  | v => v

/-- `eraseInbounds` as a transformation of the `inbounds` value. -/
def eraseInVal : GoVal → GoVal
  | .arr inbounds =>
      let inbounds :=
        match inbounds with
        | first :: rest => eraseInbound0 first :: rest
        | [] => inbounds
      let inbounds :=
        match inbounds with
        | first :: second :: rest => first :: eraseInbound1 second :: rest
        | _ => inbounds
      .arr inbounds
  | v => v

/-- `setUUID` as a transformation of the `outbounds` value. -/
def setUUIDVal (uuid : String) : GoVal → GoVal
  | .arr (.obj outbound :: rest) =>
      match mapGet outbound "type" with
      | some (.str "vless") => .arr (.obj (mapSet outbound "uuid" (.str uuid)) :: rest)
      | _ => .arr (.obj outbound :: rest)
  | v => v

theorem updOutbounds_withKey (t : GoMap) (cfg : DynamicConfig) :
    updOutbounds t cfg = withKey "outbounds" (updOutVal cfg) t := by
  simp only [updOutbounds, withKey]
  rcases h : mapGet t "outbounds" with _ | v
  · rfl
  · cases v <;> try exact (mapSet_self_of_get t "outbounds" _ h).symm
    case arr l =>
      rcases l with _ | ⟨first, rest⟩
      · exact (mapSet_self_of_get t "outbounds" _ h).symm
      · cases first <;> try exact (mapSet_self_of_get t "outbounds" _ h).symm
        case obj ob => rfl

theorem eraseOutbounds_withKey (t : GoMap) :
    eraseOutbounds t = withKey "outbounds" eraseOutVal t := by
  simp only [eraseOutbounds, withKey]
  rcases h : mapGet t "outbounds" with _ | v
  · rfl
  · cases v <;> try exact (mapSet_self_of_get t "outbounds" _ h).symm
    case arr l =>
      rcases l with _ | ⟨first, rest⟩
      · exact (mapSet_self_of_get t "outbounds" _ h).symm
      · cases first <;> try exact (mapSet_self_of_get t "outbounds" _ h).symm
        case obj ob => rfl

theorem setUUID_withKey (t : GoMap) (uuid : String) :
    setUUID t uuid = withKey "outbounds" (setUUIDVal uuid) t := by
  simp only [setUUID, withKey]
  rcases h : mapGet t "outbounds" with _ | v
  · rfl
  · cases v <;> try exact (mapSet_self_of_get t "outbounds" _ h).symm
    case arr l =>
      rcases l with _ | ⟨first, rest⟩
      · exact (mapSet_self_of_get t "outbounds" _ h).symm
      · cases first <;> try exact (mapSet_self_of_get t "outbounds" _ h).symm
        case obj ob =>
          show _ = mapSet t "outbounds" (setUUIDVal uuid (.arr (.obj ob :: rest)))
          rcases h2 : mapGet ob "type" with _ | v2
          · simp only [setUUIDVal, h2]
            exact (mapSet_self_of_get t "outbounds" _ h).symm
          · cases v2 <;>
              first
              | (simp only [setUUIDVal, h2]
                 exact (mapSet_self_of_get t "outbounds" _ h).symm)
              | skip
            case str s =>
              by_cases hs : s = "vless"
              · subst hs
                simp only [setUUIDVal, h2]
              · simp only [setUUIDVal, h2]
                split
                · rename_i heq
                  refine absurd ?_ hs
                  injection heq with hh
                  injection hh
                · exact (mapSet_self_of_get t "outbounds" _ h).symm

theorem updDNS_withKey (t : GoMap) (cfg : DynamicConfig) :
    updDNS t cfg = withKey "dns" (updDNSVal cfg) t := by
  simp only [updDNS, withKey]
  rcases h : mapGet t "dns" with _ | v
  · rfl
  · cases v <;> try exact (mapSet_self_of_get t "dns" _ h).symm
    case obj dns =>
      show _ = mapSet t "dns" (updDNSVal cfg (.obj dns))
      rcases h2 : mapGet dns "servers" with _ | v2
      · simp only [updDNSVal, h2]
        exact (mapSet_self_of_get t "dns" _ h).symm
      · cases v2 <;>
          first
          | (simp only [updDNSVal, h2]
             exact (mapSet_self_of_get t "dns" _ h).symm)
          | skip
        case arr l =>
          rcases l with _ | ⟨s0, l1⟩
          · simp only [updDNSVal, h2]
            exact (mapSet_self_of_get t "dns" _ h).symm
          · rcases l1 with _ | ⟨s1, l2⟩
            · simp only [updDNSVal, h2]
              exact (mapSet_self_of_get t "dns" _ h).symm
            · simp only [updDNSVal, h2]

theorem eraseDNS_withKey (t : GoMap) :
    eraseDNS t = withKey "dns" eraseDNSVal t := by
  simp only [eraseDNS, withKey]
  rcases h : mapGet t "dns" with _ | v
  · rfl
  · cases v <;> try exact (mapSet_self_of_get t "dns" _ h).symm
    case obj dns =>
      show _ = mapSet t "dns" (eraseDNSVal (.obj dns))
      rcases h2 : mapGet dns "servers" with _ | v2
      · simp only [eraseDNSVal, h2]
        exact (mapSet_self_of_get t "dns" _ h).symm
      · cases v2 <;>
          first
          | (simp only [eraseDNSVal, h2]
             exact (mapSet_self_of_get t "dns" _ h).symm)
          | skip
        case arr l =>
          rcases l with _ | ⟨s0, l1⟩
          · simp only [eraseDNSVal, h2]
            exact (mapSet_self_of_get t "dns" _ h).symm
          · rcases l1 with _ | ⟨s1, l2⟩
            · simp only [eraseDNSVal, h2]
              exact (mapSet_self_of_get t "dns" _ h).symm
            · simp only [eraseDNSVal, h2]

theorem updInbounds_withKey (t : GoMap) (cfg : DynamicConfig) :
    updInbounds t cfg = withKey "inbounds" (updInVal cfg) t := by
  simp only [updInbounds, withKey]
  rcases h : mapGet t "inbounds" with _ | v
  · rfl
  · cases v <;> try exact (mapSet_self_of_get t "inbounds" _ h).symm
    case arr l => rfl

theorem eraseInbounds_withKey (t : GoMap) :
    eraseInbounds t = withKey "inbounds" eraseInVal t := by
  simp only [eraseInbounds, withKey]
  rcases h : mapGet t "inbounds" with _ | v
  · rfl
  · cases v <;> try exact (mapSet_self_of_get t "inbounds" _ h).symm
    case arr l => rfl

theorem withKey_of_get_none {t : GoMap} {k : String} (f : GoVal → GoVal)
    (hm : mapGet t k = none) : withKey k f t = t := by
  unfold withKey
  rw [hm]

theorem withKey_of_get_some {t : GoMap} {k : String} {v : GoVal}
    (f : GoVal → GoVal) (hm : mapGet t k = some v) :
    withKey k f t = mapSet t k (f v) := by
  unfold withKey
  rw [hm]

theorem mapGet_withKey_ne (k k' : String) (h : k ≠ k') (f : GoVal → GoVal)
    (t : GoMap) : mapGet (withKey k f t) k' = mapGet t k' := by
  rcases hm : mapGet t k with _ | v
  · rw [withKey_of_get_none f hm]
  · rw [withKey_of_get_some f hm, mapGet_set_ne k k' h]

theorem withKey_congr (k : String) (f g : GoVal → GoVal) (t : GoMap)
    (h : ∀ v, f v = g v) : withKey k f t = withKey k g t := by
  rcases hm : mapGet t k with _ | v
  · rw [withKey_of_get_none f hm, withKey_of_get_none g hm]
  · rw [withKey_of_get_some f hm, withKey_of_get_some g hm, h v]

theorem withKey_withKey_same (k : String) (f g : GoVal → GoVal) (t : GoMap) :
    withKey k f (withKey k g t) = withKey k (fun v => f (g v)) t := by
  rcases hm : mapGet t k with _ | v
  · rw [withKey_of_get_none g hm, withKey_of_get_none f hm,
      withKey_of_get_none _ hm]
  · rw [withKey_of_get_some g hm,
      withKey_of_get_some f (mapGet_mapSet_self t k (g v)),
      withKey_of_get_some _ hm]
    exact mapSet_mapSet_self t k (g v) (f (g v))

theorem withKey_comm (k1 k2 : String) (h : k1 ≠ k2) (f g : GoVal → GoVal)
    (t : GoMap) :
    withKey k1 f (withKey k2 g t) = withKey k2 g (withKey k1 f t) := by
  rcases hm1 : mapGet t k1 with _ | v1 <;> rcases hm2 : mapGet t k2 with _ | v2
  · rw [withKey_of_get_none g hm2, withKey_of_get_none f hm1,
      withKey_of_get_none g hm2]
  · rw [withKey_of_get_some g hm2,
      withKey_of_get_none f (by rw [mapGet_set_ne k2 k1 (Ne.symm h)]; exact hm1),
      withKey_of_get_none f hm1, withKey_of_get_some g hm2]
  · rw [withKey_of_get_none g hm2, withKey_of_get_some f hm1,
      withKey_of_get_none g (by rw [mapGet_set_ne k1 k2 h]; exact hm2)]
  · rw [withKey_of_get_some g hm2,
      withKey_of_get_some f (show mapGet (mapSet t k2 (g v2)) k1 = some v1 by
        rw [mapGet_set_ne k2 k1 (Ne.symm h)]; exact hm1),
      withKey_of_get_some f hm1,
      withKey_of_get_some g (show mapGet (mapSet t k1 (f v1)) k2 = some v2 by
        rw [mapGet_set_ne k1 k2 h]; exact hm2)]
    exact mapSet_comm_of_present t k1 k2 (f v1) (g v2) h v1 hm1

/-! ### Outbound stages as value transformations -/

def updTransportStageVal (cfg : DynamicConfig) : GoVal → GoVal
  | .obj transport => .obj (updTransport transport cfg)
  | v => v

def eraseTransportStageVal : GoVal → GoVal
  | .obj transport => .obj (eraseTransport transport)
  | v => v

def updTLSVal (cfg : DynamicConfig) : GoVal → GoVal
  | .obj tls =>
      if (mapGet tls "server_name").isSome then
        .obj (mapSet tls "server_name" (.str cfg.server))
      else .obj tls
  | v => v

def eraseTLSVal : GoVal → GoVal
  | .obj tls => .obj (mapErase tls "server_name")
  | v => v

theorem updTransportStage_withKey (x : GoMap) (cfg : DynamicConfig) :
    updTransportStage x cfg = withKey "transport" (updTransportStageVal cfg) x := by
  simp only [updTransportStage, withKey]
  rcases h : mapGet x "transport" with _ | v
  · rfl
  · cases v <;> try exact (mapSet_self_of_get x "transport" _ h).symm
    case obj tr => rfl

theorem eraseTransportStage_withKey (x : GoMap) :
    eraseTransportStage x = withKey "transport" eraseTransportStageVal x := by
  simp only [eraseTransportStage, withKey]
  rcases h : mapGet x "transport" with _ | v
  · rfl
  · cases v <;> try exact (mapSet_self_of_get x "transport" _ h).symm
    case obj tr => rfl

theorem updTLS_withKey (x : GoMap) (cfg : DynamicConfig) :
    updTLS x cfg = withKey "tls" (updTLSVal cfg) x := by
  simp only [updTLS, withKey]
  rcases h : mapGet x "tls" with _ | v
  · rfl
  · cases v <;> try exact (mapSet_self_of_get x "tls" _ h).symm
    case obj tls =>
      by_cases hs : (mapGet tls "server_name").isSome
      · simp only [updTLSVal, hs, if_true]
      · simp only [updTLSVal, hs, if_false]
        exact (mapSet_self_of_get x "tls" _ h).symm

theorem eraseTLSStage_withKey (x : GoMap) :
    eraseTLSStage x = withKey "tls" eraseTLSVal x := by
  simp only [eraseTLSStage, withKey]
  rcases h : mapGet x "tls" with _ | v
  · rfl
  · cases v <;> try exact (mapSet_self_of_get x "tls" _ h).symm
    case obj tls => rfl

/-! ### Erasing the mask after an update gives the erased original -/

theorem eraseDNSServer_upd (s : GoVal) (a : String) :
    eraseDNSServer (updDNSServer s a) = eraseDNSServer s := by
  cases s <;> simp [updDNSServer, eraseDNSServer, mapErase_set_self]

theorem eraseInbound0_upd (v : GoVal) (cfg : DynamicConfig) :
    eraseInbound0 (updInbound0 v cfg) = eraseInbound0 v := by
  cases v <;>
    simp [updInbound0, eraseInbound0,
      mapErase_set_ne "mtu" "inet4_address" (by decide), mapErase_set_self]

theorem eraseInbound1_upd (v : GoVal) (cfg : DynamicConfig) :
    eraseInbound1 (updInbound1 v cfg) = eraseInbound1 v := by
  cases v <;> simp [updInbound1, eraseInbound1, mapErase_set_self]

theorem eraseTransport_upd (tr : GoMap) (cfg : DynamicConfig) :
    eraseTransport (updTransport tr cfg) = eraseTransport tr := by
  simp only [updTransport]
  rcases h : mapGet (mapSet tr "path" (GoVal.str cfg.wsPath)) "headers" with _ | v
  · simp only [eraseTransport, mapErase_set_self]
  · cases v <;> try (simp only [eraseTransport, mapErase_set_self])
    case obj hd =>
      have h' : mapGet tr "headers" = some (.obj hd) := by
        rw [← mapGet_set_ne "path" "headers" (by decide) tr (GoVal.str cfg.wsPath)]
        exact h
      simp only [eraseTransport,
        mapErase_set_ne "headers" "path" (by decide), mapErase_set_self,
        mapGet_mapSet_self, mapSet_mapSet_self,
        mapGet_erase_ne "path" "headers" (by decide), h']

theorem eraseTLSVal_upd (cfg : DynamicConfig) (v : GoVal) :
    eraseTLSVal (updTLSVal cfg v) = eraseTLSVal v := by
  cases v <;> try rfl
  case obj tls =>
    by_cases hs : (mapGet tls "server_name").isSome
    · simp [updTLSVal, eraseTLSVal, hs, mapErase_set_self]
    · simp [updTLSVal, eraseTLSVal, hs]

theorem eraseTransportStageVal_upd (cfg : DynamicConfig) (v : GoVal) :
    eraseTransportStageVal (updTransportStageVal cfg v) =
      eraseTransportStageVal v := by
  cases v <;> try rfl
  case obj tr =>
    simp [updTransportStageVal, eraseTransportStageVal, eraseTransport_upd]

theorem eraseOutboundScalars_set_sp (m : GoMap) (X Y : GoVal) :
    eraseOutboundScalars (mapSet (mapSet m "server" X) "server_port" Y) =
      eraseOutboundScalars m := by
  simp only [eraseOutboundScalars,
    mapErase_set_ne "server_port" "server" (by decide), mapErase_set_self]

theorem eraseOutboundScalars_set_uuid (m : GoMap) (w : GoVal) :
    eraseOutboundScalars (mapSet m "uuid" w) = eraseOutboundScalars m := by
  simp only [eraseOutboundScalars,
    mapErase_set_ne "uuid" "server" (by decide),
    mapErase_set_ne "uuid" "server_port" (by decide), mapErase_set_self]

theorem eraseOutboundScalars_withKey (k : String) (h1 : k ≠ "server")
    (h2 : k ≠ "server_port") (h3 : k ≠ "uuid") (f : GoVal → GoVal) (x : GoMap) :
    eraseOutboundScalars (withKey k f x) = withKey k f (eraseOutboundScalars x) := by
  have hget : mapGet (eraseOutboundScalars x) k = mapGet x k := by
    simp only [eraseOutboundScalars, mapGet_erase_ne "uuid" k (Ne.symm h3),
      mapGet_erase_ne "server_port" k (Ne.symm h2),
      mapGet_erase_ne "server" k (Ne.symm h1)]
  rcases hm : mapGet x k with _ | v
  · rw [withKey_of_get_none f hm, withKey_of_get_none f (hget.trans hm)]
  · rw [withKey_of_get_some f hm, withKey_of_get_some f (hget.trans hm)]
    simp only [eraseOutboundScalars,
      mapErase_set_ne k "server" h1, mapErase_set_ne k "server_port" h2,
      mapErase_set_ne k "uuid" h3]

theorem eraseOutbound_updOutbound (ob : GoMap) (cfg : DynamicConfig) :
    eraseOutbound (updOutbound ob cfg) = eraseOutbound ob := by
  unfold updOutbound eraseOutbound
  rw [updTLS_withKey, updTransportStage_withKey, eraseTransportStage_withKey,
    eraseTLSStage_withKey]
  rw [eraseOutboundScalars_withKey "tls" (by decide) (by decide) (by decide)]
  rw [eraseOutboundScalars_withKey "transport" (by decide) (by decide) (by decide)]
  rw [eraseOutboundScalars_set_sp]
  rw [withKey_comm "transport" "tls" (by decide) eraseTransportStageVal
    (updTLSVal cfg)]
  rw [withKey_withKey_same "tls" eraseTLSVal (updTLSVal cfg)]
  rw [withKey_congr "tls" (fun v => eraseTLSVal (updTLSVal cfg v)) eraseTLSVal _
    (fun v => eraseTLSVal_upd cfg v)]
  rw [withKey_withKey_same "transport" eraseTransportStageVal
    (updTransportStageVal cfg)]
  rw [withKey_congr "transport"
    (fun v => eraseTransportStageVal (updTransportStageVal cfg v))
    eraseTransportStageVal _ (fun v => eraseTransportStageVal_upd cfg v)]
  rw [eraseTransportStage_withKey, eraseTLSStage_withKey]

theorem eraseOutbound_setUUIDMap (ob : GoMap) (w : GoVal) :
    eraseOutbound (mapSet ob "uuid" w) = eraseOutbound ob := by
  unfold eraseOutbound
  rw [eraseOutboundScalars_set_uuid]

theorem eraseOutVal_upd (cfg : DynamicConfig) (v : GoVal) :
    eraseOutVal (updOutVal cfg v) = eraseOutVal v := by
  cases v <;> try rfl
  case arr l =>
    rcases l with _ | ⟨first, rest⟩
    · rfl
    · cases first <;> try rfl
      case obj ob => simp [updOutVal, eraseOutVal, eraseOutbound_updOutbound]

theorem eraseOutVal_setUUID (uuid : String) (v : GoVal) :
    eraseOutVal (setUUIDVal uuid v) = eraseOutVal v := by
  cases v <;> try rfl
  case arr l =>
    rcases l with _ | ⟨first, rest⟩
    · rfl
    · cases first <;> try rfl
      case obj ob =>
        simp only [setUUIDVal]
        split
        · simp [eraseOutVal, eraseOutbound_setUUIDMap]
        · rfl

theorem eraseDNSVal_upd (cfg : DynamicConfig) (v : GoVal) :
    eraseDNSVal (updDNSVal cfg v) = eraseDNSVal v := by
  cases v <;> try rfl
  case obj dns =>
    simp only [updDNSVal]
    rcases h : mapGet dns "servers" with _ | v2
    · rfl
    · cases v2 <;> try rfl
      case arr l =>
        rcases l with _ | ⟨s0, l1⟩
        · rfl
        · rcases l1 with _ | ⟨s1, l2⟩
          · rfl
          · simp only [eraseDNSVal, mapGet_mapSet_self, mapSet_mapSet_self, h,
              eraseDNSServer_upd]

theorem eraseInVal_upd (cfg : DynamicConfig) (v : GoVal) :
    eraseInVal (updInVal cfg v) = eraseInVal v := by
  cases v <;> try rfl
  case arr l =>
    rcases l with _ | ⟨a, l1⟩
    · rfl
    · rcases l1 with _ | ⟨b, l2⟩
      · simp [updInVal, eraseInVal, eraseInbound0_upd]
      · simp [updInVal, eraseInVal, eraseInbound0_upd, eraseInbound1_upd]

theorem eraseDynamicFields_frame (t : GoMap) (cfg : DynamicConfig) (uuid : String) :
    eraseDynamicFields (setUUID (updateTemplateWithDynamicConfig t cfg) uuid) =
      eraseDynamicFields t := by
  unfold eraseDynamicFields updateTemplateWithDynamicConfig
  rw [setUUID_withKey, updInbounds_withKey, updDNS_withKey, updOutbounds_withKey,
    eraseInbounds_withKey, eraseDNS_withKey, eraseOutbounds_withKey]
  rw [withKey_withKey_same "outbounds" eraseOutVal (setUUIDVal uuid)]
  rw [withKey_congr "outbounds" (fun v => eraseOutVal (setUUIDVal uuid v))
    eraseOutVal _ (fun v => eraseOutVal_setUUID uuid v)]
  rw [withKey_comm "outbounds" "inbounds" (by decide) eraseOutVal (updInVal cfg)]
  rw [withKey_comm "outbounds" "dns" (by decide) eraseOutVal (updDNSVal cfg)]
  rw [withKey_withKey_same "outbounds" eraseOutVal (updOutVal cfg)]
  rw [withKey_congr "outbounds" (fun v => eraseOutVal (updOutVal cfg v))
    eraseOutVal _ (fun v => eraseOutVal_upd cfg v)]
  rw [withKey_comm "dns" "inbounds" (by decide) eraseDNSVal (updInVal cfg)]
  rw [withKey_withKey_same "dns" eraseDNSVal (updDNSVal cfg)]
  rw [withKey_congr "dns" (fun v => eraseDNSVal (updDNSVal cfg v))
    eraseDNSVal _ (fun v => eraseDNSVal_upd cfg v)]
  rw [withKey_withKey_same "inbounds" eraseInVal (updInVal cfg)]
  rw [withKey_congr "inbounds" (fun v => eraseInVal (updInVal cfg v))
    eraseInVal _ (fun v => eraseInVal_upd cfg v)]
  rw [eraseOutbounds_withKey, eraseDNS_withKey, eraseInbounds_withKey]

/-- C3: for a fixed template and any two dynamic-parameter sets, the two
generated configs differ only in the explicitly overwritten fields:
erasing exactly those fields (outbounds[0].{server, server_port, uuid},
transport.path, transport.headers.Host, tls.server_name,
dns.servers[0..1].address, inbounds[0].{inet4_address, mtu},
inbounds[1].listen_port) from a generated config yields the same value
as erasing them from the source template, so all other fields equal the
template's and the two configs agree outside the overwritten fields. -/
theorem generateConfig_frame (m : Manager) (ty uuid : String)
    (d1 d2 : DynamicConfig) (t c1 c2 : GoMap)
    (ht : lookupTemplate m ty = some t)
    (h1 : GenerateConfig m ty uuid d1 = .ok c1)
    (h2 : GenerateConfig m ty uuid d2 = .ok c2) :
    eraseDynamicFields c1 = eraseDynamicFields t ∧
    eraseDynamicFields c2 = eraseDynamicFields t ∧
    eraseDynamicFields c1 = eraseDynamicFields c2 := by
  have extract : ∀ (d : DynamicConfig) (c : GoMap),
      GenerateConfig m ty uuid d = .ok c →
      eraseDynamicFields c = eraseDynamicFields t := by
    intro d c hc
    unfold GenerateConfig at hc
    rw [getTemplate_eq_lookup, ht] at hc
    simp only [Except.ok.injEq] at hc
    subst hc
    exact eraseDynamicFields_frame t d uuid
  have e1 := extract d1 c1 h1
  have e2 := extract d2 c2 h2
  exact ⟨e1, e2, e1.trans e2.symm⟩

theorem generateConfig_frame_witness :
    eraseDynamicFields (getOk (GenerateConfig [("vless", c4Template)] "vless"
      "u" DefaultDynamicConfig)) = eraseDynamicFields c4Template ∧
    eraseDynamicFields (getOk (GenerateConfig [("vless", c4Template)] "vless"
      "u" (ParseDynamicConfig [("server", "ex.com")]))) =
        eraseDynamicFields c4Template ∧
    eraseDynamicFields (getOk (GenerateConfig [("vless", c4Template)] "vless"
      "u" DefaultDynamicConfig)) =
      eraseDynamicFields (getOk (GenerateConfig [("vless", c4Template)] "vless"
        "u" (ParseDynamicConfig [("server", "ex.com")]))) :=
  generateConfig_frame [("vless", c4Template)] "vless" "u"
    DefaultDynamicConfig (ParseDynamicConfig [("server", "ex.com")]) c4Template
    (getOk (GenerateConfig [("vless", c4Template)] "vless" "u"
      DefaultDynamicConfig))
    (getOk (GenerateConfig [("vless", c4Template)] "vless" "u"
      (ParseDynamicConfig [("server", "ex.com")])))
    rfl rfl rfl

/-! ## Heap model of the manager (C2)

The pure embedding above cannot express aliasing, so the deep-copy
isolation claim is settled over an explicit heap: Go maps, `[]interface{}`
slices and `[]string` values are mutable cells addressed by `Nat`, and a
Go `interface{}` value (`HVal`) holds either a scalar or a reference to a
cell.  `json.Unmarshal` is modelled by allocating a pure `GoVal` into the
heap; mutation is modelled by cell writes. -/

/-- A Go `interface{}` value at runtime: scalars by value, containers by
reference. -/
inductive HVal where
  | str : String → HVal
  | int : Int → HVal
  | float : Int → HVal
  | bool : Bool → HVal
  | null : HVal
  | ref : Nat → HVal

/-- A heap cell: one mutable Go container. -/
inductive Cell where
  | objC : List (String × HVal) → Cell
  | arrC : List HVal → Cell
  | strArrC : List String → Cell

/-- The heap: cells addressed by position; allocation appends. -/
structure Heap where
  cells : List Cell

def Heap.read (h : Heap) (a : Nat) : Option Cell := h.cells.get? a

def Heap.write (h : Heap) (a : Nat) (c : Cell) : Heap := ⟨h.cells.set a c⟩

def Heap.alloc (h : Heap) (c : Cell) : Heap × Nat :=
  (⟨h.cells ++ [c]⟩, h.cells.length)

/-- Go map read on an object cell's fields. -/
def objGet : List (String × HVal) → String → Option HVal
  | [], _ => none
  | (k, v) :: rest, key => if k = key then some v else objGet rest key

/-- Go map write on an object cell's fields. -/
def objSet : List (String × HVal) → String → HVal → List (String × HVal)
  | [], key, v => [(key, v)]
  | (k, w) :: rest, key, v =>
      if k = key then (key, v) :: rest else (k, w) :: objSet rest key v

/-- Read `m[k]` where `m` is the object cell at address `a`. -/
def readObjField (h : Heap) (a : Nat) (k : String) : Option HVal :=
  match h.read a with
  | some (.objC fields) => objGet fields k
  | _ => none

/-- Write `m[k] = v` where `m` is the object cell at address `a`. -/
def writeObjField (h : Heap) (a : Nat) (k : String) (v : HVal) : Heap :=
  match h.read a with
  | some (.objC fields) => h.write a (.objC (objSet fields k v))
  | _ => h

mutual

/-- Allocate a JSON-decoded value into the heap (children first). -/
def allocVal : GoVal → Heap → HVal × Heap
  | .str s, h => (.str s, h)
  | .int n, h => (.int n, h)
  | .float n, h => (.float n, h)
  | .bool b, h => (.bool b, h)
  | .null, h => (.null, h)
  | .obj m, h =>
      let p := allocFields m h
      let q := p.2.alloc (.objC p.1)
      (.ref q.2, q.1)
  | .arr l, h =>
      let p := allocElems l h
      let q := p.2.alloc (.arrC p.1)
      (.ref q.2, q.1)
  | .strArr l, h =>
      let q := h.alloc (.strArrC l)
      (.ref q.2, q.1)

def allocFields : List (String × GoVal) → Heap → List (String × HVal) × Heap
  | [], h => ([], h)
  | (k, v) :: rest, h =>
      let p := allocVal v h
      let q := allocFields rest p.2
      ((k, p.1) :: q.1, q.2)

def allocElems : List GoVal → Heap → List HVal × Heap
  | [], h => ([], h)
  | v :: rest, h =>
      let p := allocVal v h
      let q := allocElems rest p.2
      (p.1 :: q.1, q.2)

end

mutual

/-- Read a value back out of the heap as a pure `GoVal` (fuel-bounded;
JSON-decoded heaps are acyclic so enough fuel always exists). -/
def viewV : Nat → Heap → HVal → Option GoVal
  | 0, _, _ => none
  | _ + 1, _, .str s => some (.str s)
  | _ + 1, _, .int n => some (.int n)
  | _ + 1, _, .float n => some (.float n)
  | _ + 1, _, .bool b => some (.bool b)
  | _ + 1, _, .null => some .null
  | fuel + 1, h, .ref a =>
      match h.read a with
      | some (.objC fields) => (viewFields fuel h fields).map GoVal.obj
      | some (.arrC elems) => (viewElems fuel h elems).map GoVal.arr
      | some (.strArrC l) => some (.strArr l)
      | none => none
termination_by fuel h v => (fuel, 0)

def viewFields : Nat → Heap → List (String × HVal) → Option (List (String × GoVal))
  | _, _, [] => some []
  | fuel, h, (k, v) :: rest =>
      match viewV fuel h v, viewFields fuel h rest with
      | some gv, some grest => some ((k, gv) :: grest)
      | _, _ => none
termination_by fuel h l => (fuel, l.length + 1)

def viewElems : Nat → Heap → List HVal → Option (List GoVal)
  | _, _, [] => some []
  | fuel, h, v :: rest =>
      match viewV fuel h v, viewElems fuel h rest with
      | some gv, some grest => some (gv :: grest)
      | _, _ => none
termination_by fuel h l => (fuel, l.length + 1)

end

mutual

/-- Whether a pure value is JSON-decodable (no `[]string`), so the heap
holds no shareable `strArrC` cell for it. -/
def pureV : GoVal → Bool
  | .obj m => pureFields m
  | .arr l => pureElems l
  | .strArr _ => false
  | _ => true

def pureFields : List (String × GoVal) → Bool
  | [] => true
  | (_, v) :: rest => pureV v && pureFields rest

def pureElems : List GoVal → Bool
  | [] => true
  | v :: rest => pureV v && pureElems rest

end

mutual

/-- View fuel needed for a pure value. -/
def gdepthV : GoVal → Nat
  | .obj m => gdepthFields m + 1
  | .arr l => gdepthElems l + 1
  | _ => 1

def gdepthFields : List (String × GoVal) → Nat
  | [] => 0
  | (_, v) :: rest => max (gdepthV v) (gdepthFields rest)

def gdepthElems : List GoVal → Nat
  | [] => 0
  | v :: rest => max (gdepthV v) (gdepthElems rest)

end

mutual

/-- `Manager.deepCopyMap`'s type switch at heap level (fuel-bounded; the
recursion terminates on the acyclic heaps the program builds).  A map or
slice cell is copied into fresh cells; every other value — including a
`[]string` reference, the switch's default case — is returned as is. -/
def deepCopyValH : Nat → Heap → HVal → Option (HVal × Heap)
  | 0, _, _ => none
  | fuel + 1, h, v =>
      match v with
      | .ref a =>
          match h.read a with
          | some (.objC fields) =>
              match deepCopyFieldsH fuel h fields with
              | some p =>
                  let q := p.2.alloc (.objC p.1)
                  some (.ref q.2, q.1)
              | none => none
          | some (.arrC elems) =>
              match deepCopyElemsH fuel h elems with
              | some p =>
                  let q := p.2.alloc (.arrC p.1)
                  some (.ref q.2, q.1)
              | none => none
          | some (.strArrC _) => some (v, h)
          | none => none
      | prim => some (prim, h)
termination_by fuel h v => (fuel, 0)

def deepCopyFieldsH : Nat → Heap → List (String × HVal) →
    Option (List (String × HVal) × Heap)
  | _, h, [] => some ([], h)
  | fuel, h, (k, v) :: rest =>
      match deepCopyValH fuel h v with
      | some p =>
          match deepCopyFieldsH fuel p.2 rest with
          | some q => some ((k, p.1) :: q.1, q.2)
          | none => none
      | none => none
termination_by fuel h l => (fuel, l.length + 1)

def deepCopyElemsH : Nat → Heap → List HVal → Option (List HVal × Heap)
  | _, h, [] => some ([], h)
  | fuel, h, v :: rest =>
      match deepCopyValH fuel h v with
      | some p =>
          match deepCopyElemsH fuel p.2 rest with
          | some q => some (p.1 :: q.1, q.2)
          | none => none
      | none => none
termination_by fuel h l => (fuel, l.length + 1)

end

/-- `Manager.deepCopyMap` applied to the template map cell at `a`:
copies the fields and allocates the copy's own map cell. -/
def deepCopyMapCellH (fuel : Nat) (h : Heap) (a : Nat) : Option (Nat × Heap) :=
  match h.read a with
  | some (.objC fields) =>
      match deepCopyFieldsH fuel h fields with
      | some p =>
          let q := p.2.alloc (.objC p.1)
          some (q.2, q.1)
      | none => none
  | _ => none

/-! ### Heap-level update and manager operations -/

/-- The `headers` sub-block of the outbounds update (the Go `let h :=`
rebinding chain is rendered as function composition). -/
def updateHeadersH (h : Heap) (tra : Nat) (cfg : DynamicConfig) : Heap :=
  match readObjField h tra "headers" with
  | some (.ref ha) =>
      match h.read ha with
      | some (.objC _) => writeObjField h ha "Host" (.str cfg.server)
      | _ => h
  | _ => h

/-- The `transport` sub-block of the outbounds update. -/
def updateTransportH (h : Heap) (ba : Nat) (cfg : DynamicConfig) : Heap :=
  match readObjField h ba "transport" with
  | some (.ref tra) =>
      match h.read tra with
      | some (.objC _) =>
          updateHeadersH (writeObjField h tra "path" (.str cfg.wsPath)) tra cfg
      | _ => h
  | _ => h

/-- The `tls` sub-block of the outbounds update. -/
def updateTLSH (h : Heap) (ba : Nat) (cfg : DynamicConfig) : Heap :=
  match readObjField h ba "tls" with
  | some (.ref tla) =>
      match h.read tla with
      | some (.objC tlsFields) =>
          if (objGet tlsFields "server_name").isSome then
            writeObjField h tla "server_name" (.str cfg.server)
          else h
      | _ => h
  | _ => h

/-- `updateTemplateWithDynamicConfig`, outbounds section, on the template
map cell at `ta`.  Each Go type assertion is a match on the referenced
cell's kind; a failing assertion skips the writes. -/
def updateOutboundsH (h : Heap) (ta : Nat) (cfg : DynamicConfig) : Heap :=
  match readObjField h ta "outbounds" with
  | some (.ref oa) =>
      match h.read oa with
      | some (.arrC (first :: _)) =>
          match first with
          | .ref ba =>
              match h.read ba with
              | some (.objC _) =>
                  updateTLSH
                    (updateTransportH
                      (writeObjField
                        (writeObjField h ba "server" (.str cfg.server))
                        ba "server_port" (.int cfg.serverPort))
                      ba cfg)
                    ba cfg
              | _ => h
          | _ => h
      | _ => h
  | _ => h

/-- Write of `dns.servers[0].address`. -/
def updateDNSServer0H (h : Heap) (s0 : HVal) (cfg : DynamicConfig) : Heap :=
  match s0 with
  | .ref s0a =>
      match h.read s0a with
      | some (.objC _) => writeObjField h s0a "address" (.str cfg.dnsServer)
      | _ => h
  | _ => h

/-- Write of `dns.servers[1].address`. -/
def updateDNSServer1H (h : Heap) (s1 : HVal) (cfg : DynamicConfig) : Heap :=
  match s1 with
  | .ref s1a =>
      match h.read s1a with
      | some (.objC _) => writeObjField h s1a "address" (.str cfg.dohServer)
      | _ => h
  | _ => h

/-- DNS section: requires the `servers` slice to have at least two
entries, then overwrites both addresses. -/
def updateDNSH (h : Heap) (ta : Nat) (cfg : DynamicConfig) : Heap :=
  match readObjField h ta "dns" with
  | some (.ref da) =>
      match h.read da with
      | some (.objC _) =>
          match readObjField h da "servers" with
          | some (.ref sa) =>
              match h.read sa with
              | some (.arrC (s0 :: s1 :: _)) =>
                  updateDNSServer1H (updateDNSServer0H h s0 cfg) s1 cfg
              | _ => h
          | _ => h
      | _ => h
  | _ => h

/-- Inbounds entry 0: a freshly allocated `[]string` tun-address plus
the MTU. -/
def updateInbound0H (h : Heap) (first : HVal) (cfg : DynamicConfig) : Heap :=
  match first with
  | .ref i0 =>
      match h.read i0 with
      | some (.objC _) =>
          writeObjField
            (writeObjField (h.alloc (.strArrC [cfg.tunAddress])).1 i0
              "inet4_address" (.ref (h.alloc (.strArrC [cfg.tunAddress])).2))
            i0 "mtu" (.int cfg.tunMTU)
      | _ => h
  | _ => h

/-- Inbounds entry 1: the mixed listen port. -/
def updateInbound1H (h : Heap) (second : HVal) (cfg : DynamicConfig) : Heap :=
  match second with
  | .ref i1 =>
      match h.read i1 with
      | some (.objC _) =>
          writeObjField h i1 "listen_port" (.int cfg.mixedPort)
      | _ => h
  | _ => h

/-- Inbounds section: entry 0 gets the tun-address and MTU, entry 1 gets
the mixed listen port (each guarded by a length check). -/
def updateInboundsH (h : Heap) (ta : Nat) (cfg : DynamicConfig) : Heap :=
  match readObjField h ta "inbounds" with
  | some (.ref ia) =>
      match h.read ia with
      | some (.arrC elems) =>
          match elems with
          | [] => h
          | [first] => updateInbound0H h first cfg
          | first :: second :: _ =>
              updateInbound1H (updateInbound0H h first cfg) second cfg
      | _ => h
  | _ => h

def updateTemplateWithDynamicConfigH (h : Heap) (ta : Nat)
    (cfg : DynamicConfig) : Heap :=
  updateInboundsH (updateDNSH (updateOutboundsH h ta cfg) ta cfg) ta cfg

/-- The UUID write of `GenerateConfig` on the heap. -/
def setUUIDH (h : Heap) (ta : Nat) (uuid : String) : Heap :=
  match readObjField h ta "outbounds" with
  | some (.ref oa) =>
      match h.read oa with
      | some (.arrC (first :: _)) =>
          match first with
          | .ref ba =>
              match h.read ba with
              | some (.objC obFields) =>
                  match objGet obFields "type" with
                  | some (.str "vless") => writeObjField h ba "uuid" (.str uuid)
                  | _ => h
              | _ => h
          | _ => h
      | _ => h
  | _ => h

/-- The manager's state: the heap plus `templates`, mapping each type to
the address of its template map cell. -/
structure MState where
  heap : Heap
  store : List (String × Nat)

def lookupAddr : List (String × Nat) → String → Option Nat
  | [], _ => none
  | (k, a) :: rest, key => if k = key then some a else lookupAddr rest key

def storeAddr : List (String × Nat) → String → Nat → List (String × Nat)
  | [], key, a => [(key, a)]
  | (k, b) :: rest, key, a =>
      if k = key then (key, a) :: rest else (k, b) :: storeAddr rest key a

/-- Allocate one parsed template document. -/
def loadOne (h : Heap) (m : GoMap) : Nat × Heap :=
  let p := allocFields m h
  let q := p.2.alloc (.objC p.1)
  (q.2, q.1)

/-- `Manager.LoadTemplates` at heap level: decode each document into the
heap and store its address. -/
def loadTemplatesH (ts : List (String × GoMap)) : MState :=
  ts.foldl (fun st p =>
    let q := loadOne st.heap p.2
    { heap := q.2, store := storeAddr st.store p.1 q.1 }) ⟨⟨[]⟩, []⟩

/-- `Manager.GenerateConfig` at heap level: look up the stored template,
deep-copy it, mutate the copy, return its address and the new state.
`none` means the copy ran out of fuel (impossible on the acyclic heaps
the program builds, given enough fuel). -/
def GenerateConfigH (fuel : Nat) (st : MState) (ty uuid : String)
    (cfg : DynamicConfig) : Option (Except String (Nat × MState)) :=
  match lookupAddr st.store ty with
  | none => some (.error ("template type " ++ ty ++ " not found"))
  | some a =>
      match deepCopyMapCellH fuel st.heap a with
      | none => none
      | some (b, h1) =>
          let h2 := updateTemplateWithDynamicConfigH h1 b cfg
          let h3 := setUUIDH h2 b uuid
          some (.ok (b, { heap := h3, store := st.store }))

/-- A sequence of `GenerateConfig` requests against the shared manager. -/
def runCallsH (fuel : Nat) : List (String × String × DynamicConfig) →
    MState → Option MState
  | [], st => some st
  | (ty, uuid, cfg) :: rest, st =>
      match GenerateConfigH fuel st ty uuid cfg with
      | none => none
      | some (.error _) => runCallsH fuel rest st
      | some (.ok (_, st2)) => runCallsH fuel rest st2

/-! ### Heap invariants -/

def valBelow (n : Nat) : HVal → Prop
  | .ref a => a < n
  | _ => True

def cellBelow (n : Nat) : Cell → Prop
  | .objC fields => ∀ kv ∈ fields, valBelow n kv.2
  | .arrC elems => ∀ v ∈ elems, valBelow n v
  | .strArrC _ => True

def valAtLeast (n : Nat) : HVal → Prop
  | .ref a => n ≤ a
  | _ => True

def cellAtLeast (n : Nat) : Cell → Prop
  | .objC fields => ∀ kv ∈ fields, valAtLeast n kv.2
  | .arrC elems => ∀ v ∈ elems, valAtLeast n v
  | .strArrC _ => True

/-- Cells below `n` reference only addresses below `n`. -/
def segBelow (n : Nat) (h : Heap) : Prop :=
  ∀ a c, a < n → h.read a = some c → cellBelow n c

/-- Cells at or above `n` reference only addresses at or above `n`. -/
def segAtLeast (n : Nat) (h : Heap) : Prop :=
  ∀ a c, n ≤ a → h.read a = some c → cellAtLeast n c

/-- No `[]string` cell below `n` (true of a JSON-decoded region), so the
deep copy never shares a cell of that region. -/
def noShareBelow (n : Nat) (h : Heap) : Prop :=
  ∀ a l, a < n → h.read a ≠ some (.strArrC l)

/-- The first `n` cells agree. -/
def prefixEq (n : Nat) (h h' : Heap) : Prop :=
  ∀ a, a < n → h'.read a = h.read a

/-- `h'` extends `h` by appended cells only. -/
def heapLE (h h' : Heap) : Prop :=
  ∃ ext, h'.cells = h.cells ++ ext

/-- The addresses reachable from a value through container cells. -/
inductive ReachesV (h : Heap) : HVal → Nat → Prop where
  | self (a : Nat) : ReachesV h (.ref a) a
  | objStep (a : Nat) (fields : List (String × HVal)) (k : String) (w : HVal)
      (b : Nat) : h.read a = some (.objC fields) → (k, w) ∈ fields →
      ReachesV h w b → ReachesV h (.ref a) b
  | arrStep (a : Nat) (elems : List HVal) (w : HVal) (b : Nat) :
      h.read a = some (.arrC elems) → w ∈ elems →
      ReachesV h w b → ReachesV h (.ref a) b

/-! ### Basic heap lemmas -/

theorem read_lt_length {h : Heap} {a : Nat} {c : Cell}
    (hr : h.read a = some c) : a < h.cells.length := by
  by_contra hge
  rw [Heap.read, List.get?_eq_none.2 (Nat.le_of_not_lt hge)] at hr
  cases hr

theorem read_write_ne (h : Heap) (a b : Nat) (c : Cell) (hne : b ≠ a) :
    (h.write a c).read b = h.read b := by
  simp [Heap.read, Heap.write, List.getElem?_set_ne (Ne.symm hne)]

theorem write_length (h : Heap) (a : Nat) (c : Cell) :
    (h.write a c).cells.length = h.cells.length := by
  simp [Heap.write]

theorem read_write_self (h : Heap) (a : Nat) (c : Cell)
    (ha : a < h.cells.length) : (h.write a c).read a = some c := by
  simp [Heap.read, Heap.write, List.getElem?_set_eq_of_lt _ ha]

theorem read_append (h : Heap) (ext : List Cell) (a : Nat)
    (ha : a < h.cells.length) :
    Heap.read ⟨h.cells ++ ext⟩ a = h.read a := by
  simp [Heap.read, List.getElem?_append_left ha]

theorem heapLE_refl (h : Heap) : heapLE h h := ⟨[], by simp⟩

theorem heapLE_trans {h1 h2 h3 : Heap} (a : heapLE h1 h2) (b : heapLE h2 h3) :
    heapLE h1 h3 := by
  obtain ⟨e1, he1⟩ := a
  obtain ⟨e2, he2⟩ := b
  exact ⟨e1 ++ e2, by rw [he2, he1, List.append_assoc]⟩

theorem heapLE_length {h h' : Heap} (hle : heapLE h h') :
    h.cells.length ≤ h'.cells.length := by
  obtain ⟨ext, he⟩ := hle
  simp [he]

theorem heapLE_read {h h' : Heap} {a : Nat} {c : Cell} (hle : heapLE h h')
    (hr : h.read a = some c) : h'.read a = some c := by
  obtain ⟨ext, he⟩ := hle
  have ha := read_lt_length hr
  calc h'.read a = Heap.read ⟨h.cells ++ ext⟩ a := by rw [← he]
    _ = h.read a := read_append h ext a ha
    _ = some c := hr

theorem heapLE_prefixEq {h h' : Heap} {n : Nat} (hle : heapLE h h')
    (hn : n ≤ h.cells.length) : prefixEq n h h' := by
  intro a ha
  obtain ⟨ext, he⟩ := hle
  calc h'.read a = Heap.read ⟨h.cells ++ ext⟩ a := by rw [← he]
    _ = h.read a := read_append h ext a (Nat.lt_of_lt_of_le ha hn)

theorem prefixEq_refl (n : Nat) (h : Heap) : prefixEq n h h := fun _ _ => rfl

theorem prefixEq_trans {n : Nat} {h1 h2 h3 : Heap} (a : prefixEq n h1 h2)
    (b : prefixEq n h2 h3) : prefixEq n h1 h3 :=
  fun x hx => (b x hx).trans (a x hx)

theorem valAtLeast_mono {m n : Nat} (hmn : m ≤ n) {v : HVal}
    (hv : valAtLeast n v) : valAtLeast m v := by
  cases v <;> simp [valAtLeast] at hv ⊢
  exact Nat.le_trans hmn hv

theorem cellAtLeast_mono {m n : Nat} (hmn : m ≤ n) {c : Cell}
    (hc : cellAtLeast n c) : cellAtLeast m c := by
  cases c with
  | objC fields =>
    intro kv hkv
    exact valAtLeast_mono hmn (hc kv hkv)
  | arrC elems =>
    intro v hv
    exact valAtLeast_mono hmn (hc v hv)
  | strArrC l => trivial

theorem valBelow_mono {m n : Nat} (hmn : m ≤ n) {v : HVal}
    (hv : valBelow m v) : valBelow n v := by
  cases v <;> simp [valBelow] at hv ⊢
  exact Nat.lt_of_lt_of_le hv hmn

theorem cellBelow_mono {m n : Nat} (hmn : m ≤ n) {c : Cell}
    (hc : cellBelow m c) : cellBelow n c := by
  cases c with
  | objC fields =>
    intro kv hkv
    exact valBelow_mono hmn (hc kv hkv)
  | arrC elems =>
    intro v hv
    exact valBelow_mono hmn (hc v hv)
  | strArrC l => trivial

theorem segBelow_of_prefixEq {n : Nat} {h h' : Heap} (hseg : segBelow n h)
    (hpre : prefixEq n h h') : segBelow n h' := by
  intro a c ha hr
  rw [hpre a ha] at hr
  exact hseg a c ha hr

theorem noShareBelow_of_prefixEq {n : Nat} {h h' : Heap}
    (hns : noShareBelow n h) (hpre : prefixEq n h h') : noShareBelow n h' := by
  intro a l ha hr
  rw [hpre a ha] at hr
  exact hns a l ha hr

theorem objSet_mem {fields : List (String × HVal)} {k : String} {v : HVal}
    {kv : String × HVal} (hm : kv ∈ objSet fields k v) :
    kv = (k, v) ∨ kv ∈ fields := by
  induction fields with
  | nil => simpa [objSet] using hm
  | cons p rest ih =>
    obtain ⟨k1, v1⟩ := p
    by_cases hk : k1 = k
    · simp only [objSet, hk, if_true] at hm
      rcases List.mem_cons.1 hm with h | h
      · exact Or.inl h
      · exact Or.inr (List.mem_cons.2 (Or.inr h))
    · simp only [objSet, hk, if_false] at hm
      rcases List.mem_cons.1 hm with h | h
      · exact Or.inr (List.mem_cons.2 (Or.inl h))
      · rcases ih h with h' | h'
        · exact Or.inl h'
        · exact Or.inr (List.mem_cons.2 (Or.inr h'))

theorem objGet_mem {fields : List (String × HVal)} {k : String} {v : HVal}
    (hg : objGet fields k = some v) : (k, v) ∈ fields := by
  induction fields with
  | nil => cases hg
  | cons p rest ih =>
    obtain ⟨k1, v1⟩ := p
    by_cases hk : k1 = k
    · simp only [objGet, hk, if_true] at hg
      subst hk
      cases hg
      exact List.mem_cons_self _ _
    · simp only [objGet, hk, if_false] at hg
      exact List.mem_cons.2 (Or.inr (ih hg))

theorem heapLE_read_lt {h h' : Heap} {a : Nat} (hle : heapLE h h')
    (ha : a < h.cells.length) : h'.read a = h.read a := by
  obtain ⟨ext, he⟩ := hle
  calc h'.read a = Heap.read ⟨h.cells ++ ext⟩ a := by rw [← he]
    _ = h.read a := read_append h ext a ha

theorem read_concat_length (h : Heap) (c : Cell) :
    Heap.read ⟨h.cells ++ [c]⟩ h.cells.length = some c := by
  simp [Heap.read]

/-- Successful views are stable under heap extension. -/
theorem view_heapLE : ∀ fuel : Nat,
    (∀ h h' v g, heapLE h h' → viewV fuel h v = some g →
      viewV fuel h' v = some g) ∧
    (∀ h h' l gl, heapLE h h' → viewFields fuel h l = some gl →
      viewFields fuel h' l = some gl) ∧
    (∀ h h' l gl, heapLE h h' → viewElems fuel h l = some gl →
      viewElems fuel h' l = some gl) := by
  intro fuel
  induction fuel with
  | zero =>
    refine ⟨?_, ?_, ?_⟩
    · intro h h' v g _ hv
      simp [viewV] at hv
    · intro h h' l gl hle hv
      cases l with
      | nil => simpa [viewFields] using hv
      | cons p rest =>
        obtain ⟨k, v⟩ := p
        simp [viewFields, viewV] at hv
    · intro h h' l gl hle hv
      cases l with
      | nil => simpa [viewElems] using hv
      | cons p rest => simp [viewElems, viewV] at hv
  | succ fuel ih =>
    have hval : ∀ h h' v g, heapLE h h' → viewV (fuel + 1) h v = some g →
        viewV (fuel + 1) h' v = some g := by
      intro h h' v g hle hv
      cases v with
      | ref a =>
        simp only [viewV] at hv ⊢
        rcases hr : h.read a with _ | c
        · rw [hr] at hv
          cases hv
        · rw [hr] at hv
          rw [heapLE_read hle hr]
          cases c with
          | objC fields =>
            dsimp only at hv ⊢
            rcases hm : viewFields fuel h fields with _ | gf
            · rw [hm] at hv
              cases hv
            · rw [hm] at hv
              rw [ih.2.1 h h' fields gf hle hm]
              exact hv
          | arrC elems =>
            dsimp only at hv ⊢
            rcases hm : viewElems fuel h elems with _ | ge
            · rw [hm] at hv
              cases hv
            · rw [hm] at hv
              rw [ih.2.2 h h' elems ge hle hm]
              exact hv
          | strArrC l => exact hv
      | str s => simpa [viewV] using hv
      | int n => simpa [viewV] using hv
      | float n => simpa [viewV] using hv
      | bool b => simpa [viewV] using hv
      | null => simpa [viewV] using hv
    refine ⟨hval, ?_, ?_⟩
    · intro h h' l gl hle hv
      induction l generalizing gl with
      | nil => simpa [viewFields] using hv
      | cons p rest ihl =>
        obtain ⟨k, v⟩ := p
        simp only [viewFields] at hv ⊢
        rcases h1 : viewV (fuel + 1) h v with _ | gv <;> rw [h1] at hv
        · cases hv
        · rcases h2 : viewFields (fuel + 1) h rest with _ | grest <;>
            rw [h2] at hv
          · cases hv
          · rw [hval h h' v gv hle h1, ihl grest h2]
            exact hv
    · intro h h' l gl hle hv
      induction l generalizing gl with
      | nil => simpa [viewElems] using hv
      | cons v rest ihl =>
        simp only [viewElems] at hv ⊢
        rcases h1 : viewV (fuel + 1) h v with _ | gv <;> rw [h1] at hv
        · cases hv
        · rcases h2 : viewElems (fuel + 1) h rest with _ | grest <;>
            rw [h2] at hv
          · cases hv
          · rw [hval h h' v gv hle h1, ihl grest h2]
            exact hv

/-- Views of values confined below `n` only depend on the first `n`
cells. -/
theorem view_prefixEq (n : Nat) : ∀ fuel : Nat,
    (∀ h h' v, segBelow n h → prefixEq n h h' → valBelow n v →
      viewV fuel h' v = viewV fuel h v) ∧
    (∀ h h' l, segBelow n h → prefixEq n h h' →
      (∀ kv ∈ l, valBelow n (Prod.snd kv)) →
      viewFields fuel h' l = viewFields fuel h l) ∧
    (∀ h h' l, segBelow n h → prefixEq n h h' → (∀ v ∈ l, valBelow n v) →
      viewElems fuel h' l = viewElems fuel h l) := by
  intro fuel
  induction fuel with
  | zero =>
    refine ⟨fun h h' v _ _ _ => by simp [viewV], ?_, ?_⟩
    · intro h h' l _ _ _
      cases l with
      | nil => simp [viewFields]
      | cons p rest =>
        obtain ⟨k, v⟩ := p
        simp [viewFields, viewV]
    · intro h h' l _ _ _
      cases l with
      | nil => simp [viewElems]
      | cons v rest => simp [viewElems, viewV]
  | succ fuel ih =>
    have hval : ∀ h h' v, segBelow n h → prefixEq n h h' → valBelow n v →
        viewV (fuel + 1) h' v = viewV (fuel + 1) h v := by
      intro h h' v hseg hpre hv
      cases v with
      | ref a =>
        have ha : a < n := hv
        simp only [viewV]
        rw [hpre a ha]
        rcases hr : h.read a with _ | c
        · rfl
        · cases c with
          | objC fields =>
            have hcb := hseg a _ ha hr
            dsimp only
            rw [ih.2.1 h h' fields hseg hpre (fun kv hkv => hcb kv hkv)]
          | arrC elems =>
            have hcb := hseg a _ ha hr
            dsimp only
            rw [ih.2.2 h h' elems hseg hpre (fun v hv => hcb v hv)]
          | strArrC l => rfl
      | str s => simp [viewV]
      | int m => simp [viewV]
      | float m => simp [viewV]
      | bool b => simp [viewV]
      | null => simp [viewV]
    refine ⟨hval, ?_, ?_⟩
    · intro h h' l hseg hpre hl
      induction l with
      | nil => simp [viewFields]
      | cons p rest ihl =>
        obtain ⟨k, v⟩ := p
        simp only [viewFields]
        rw [hval h h' v hseg hpre (hl (k, v) (List.mem_cons_self _ _)),
          ihl (fun kv hkv => hl kv (List.mem_cons.2 (Or.inr hkv)))]
    · intro h h' l hseg hpre hl
      induction l with
      | nil => simp [viewElems]
      | cons v rest ihl =>
        simp only [viewElems]
        rw [hval h h' v hseg hpre (hl v (List.mem_cons_self _ _)),
          ihl (fun w hw => hl w (List.mem_cons.2 (Or.inr hw)))]

theorem read_concat_gt (h : Heap) (c : Cell) {a : Nat}
    (ha : h.cells.length < a) : Heap.read ⟨h.cells ++ [c]⟩ a = none := by
  simp only [Heap.read, List.get?_eq_getElem?]
  apply List.getElem?_eq_none
  simp
  omega

theorem allocStatic_spec {h : Heap} {g : GoVal} {v : HVal}
    (hvb : ∀ n, valBelow n v)
    (hview : ∀ f (hE : Heap), gdepthV g ≤ f → viewV f hE v = some g) :
    heapLE h h ∧ valBelow h.cells.length v ∧
    (∀ a c, h.cells.length ≤ a → h.read a = some c →
      cellBelow h.cells.length c) ∧
    (pureV g = true → ∀ a l, h.cells.length ≤ a →
      h.read a ≠ some (.strArrC l)) ∧
    (∀ f, gdepthV g ≤ f → ∀ hE, heapLE h hE → viewV f hE v = some g) := by
  refine ⟨heapLE_refl h, hvb _, ?_, ?_, fun f hf hE _ => hview f hE hf⟩
  · intro a c ha hr
    exact absurd (read_lt_length hr) (Nat.not_lt.2 ha)
  · intro _ a l ha hr
    exact absurd (read_lt_length hr) (Nat.not_lt.2 ha)

mutual

theorem allocVal_spec : ∀ (g : GoVal) (h : Heap) (v : HVal) (h' : Heap),
    allocVal g h = (v, h') →
    heapLE h h' ∧ valBelow h'.cells.length v ∧
    (∀ a c, h.cells.length ≤ a → h'.read a = some c →
      cellBelow h'.cells.length c) ∧
    (pureV g = true → ∀ a l, h.cells.length ≤ a →
      h'.read a ≠ some (.strArrC l)) ∧
    (∀ f, gdepthV g ≤ f → ∀ hE, heapLE h' hE → viewV f hE v = some g)
  | .str s, h, v, h', heq => by
    simp only [allocVal, Prod.mk.injEq] at heq
    obtain ⟨hv, hh⟩ := heq
    subst hv
    subst hh
    exact allocStatic_spec (fun _ => trivial) (fun f hE hf => by
      cases f with
      | zero => exact absurd hf (by simp [gdepthV])
      | succ f => simp [viewV])
  | .int n, h, v, h', heq => by
    simp only [allocVal, Prod.mk.injEq] at heq
    obtain ⟨hv, hh⟩ := heq
    subst hv
    subst hh
    exact allocStatic_spec (fun _ => trivial) (fun f hE hf => by
      cases f with
      | zero => exact absurd hf (by simp [gdepthV])
      | succ f => simp [viewV])
  | .float n, h, v, h', heq => by
    simp only [allocVal, Prod.mk.injEq] at heq
    obtain ⟨hv, hh⟩ := heq
    subst hv
    subst hh
    exact allocStatic_spec (fun _ => trivial) (fun f hE hf => by
      cases f with
      | zero => exact absurd hf (by simp [gdepthV])
      | succ f => simp [viewV])
  | .bool b, h, v, h', heq => by
    simp only [allocVal, Prod.mk.injEq] at heq
    obtain ⟨hv, hh⟩ := heq
    subst hv
    subst hh
    exact allocStatic_spec (fun _ => trivial) (fun f hE hf => by
      cases f with
      | zero => exact absurd hf (by simp [gdepthV])
      | succ f => simp [viewV])
  | .null, h, v, h', heq => by
    simp only [allocVal, Prod.mk.injEq] at heq
    obtain ⟨hv, hh⟩ := heq
    subst hv
    subst hh
    exact allocStatic_spec (fun _ => trivial) (fun f hE hf => by
      cases f with
      | zero => exact absurd hf (by simp [gdepthV])
      | succ f => simp [viewV])
  | .strArr l, h, v, h', heq => by
    simp only [allocVal, Heap.alloc, Prod.mk.injEq] at heq
    obtain ⟨hv, hh⟩ := heq
    subst hv
    subst hh
    refine ⟨⟨[.strArrC l], rfl⟩, ?_, ?_, ?_, ?_⟩
    · simp [valBelow]
    · intro a c ha hr
      rcases Nat.lt_or_ge h.cells.length a with hgt | hge
      · rw [read_concat_gt h _ hgt] at hr
        cases hr
      · have ha' : a = h.cells.length := Nat.le_antisymm hge ha
        subst ha'
        rw [read_concat_length] at hr
        cases hr
        trivial
    · intro hp
      simp [pureV] at hp
    · intro f hf hE hle
      cases f with
      | zero => exact absurd hf (by simp [gdepthV])
      | succ f =>
        have hr : hE.read h.cells.length = some (.strArrC l) :=
          heapLE_read hle (read_concat_length h _)
        simp [viewV, hr]
  | .obj m, h, v, h', heq => by
    rcases hp : allocFields m h with ⟨fs, h1⟩
    have hfs := allocFields_spec m h fs h1 hp
    simp only [allocVal, hp, Heap.alloc, Prod.mk.injEq] at heq
    obtain ⟨hv, hh⟩ := heq
    subst hv
    subst hh
    have hlen1 : h.cells.length ≤ h1.cells.length := heapLE_length hfs.1
    refine ⟨heapLE_trans hfs.1 ⟨[.objC fs], rfl⟩, ?_, ?_, ?_, ?_⟩
    · simp [valBelow]
    · intro a c ha hr
      rcases Nat.lt_or_ge a h1.cells.length with hlt | hge
      · rw [read_append h1 _ a hlt] at hr
        exact cellBelow_mono (by simp) (hfs.2.2.1 a c ha hr)
      · rcases Nat.lt_or_ge h1.cells.length a with hgt | hle2
        · rw [read_concat_gt h1 _ hgt] at hr
          cases hr
        · have ha' : a = h1.cells.length := by omega
          subst ha'
          rw [read_concat_length] at hr
          cases hr
          intro kv hkv
          exact valBelow_mono (by simp) (hfs.2.1 kv hkv)
    · intro hpu a l ha hr
      rcases Nat.lt_or_ge a h1.cells.length with hlt | hge
      · rw [read_append h1 _ a hlt] at hr
        exact hfs.2.2.2.1 (by simpa [pureV] using hpu) a l ha hr
      · rcases Nat.lt_or_ge h1.cells.length a with hgt | hle2
        · rw [read_concat_gt h1 _ hgt] at hr
          cases hr
        · have ha' : a = h1.cells.length := by omega
          subst ha'
          rw [read_concat_length] at hr
          cases hr
    · intro f hf hE hle
      have hf' : gdepthFields m + 1 ≤ f := by simpa [gdepthV] using hf
      cases f with
      | zero => omega
      | succ f =>
        have hr : hE.read h1.cells.length = some (.objC fs) :=
          heapLE_read hle (read_concat_length h1 _)
        have hview := hfs.2.2.2.2 f (by omega) hE
          (heapLE_trans ⟨[.objC fs], rfl⟩ hle)
        simp [viewV, hr, hview]
  | .arr l, h, v, h', heq => by
    rcases hp : allocElems l h with ⟨es, h1⟩
    have hes := allocElems_spec l h es h1 hp
    simp only [allocVal, hp, Heap.alloc, Prod.mk.injEq] at heq
    obtain ⟨hv, hh⟩ := heq
    subst hv
    subst hh
    have hlen1 : h.cells.length ≤ h1.cells.length := heapLE_length hes.1
    refine ⟨heapLE_trans hes.1 ⟨[.arrC es], rfl⟩, ?_, ?_, ?_, ?_⟩
    · simp [valBelow]
    · intro a c ha hr
      rcases Nat.lt_or_ge a h1.cells.length with hlt | hge
      · rw [read_append h1 _ a hlt] at hr
        exact cellBelow_mono (by simp) (hes.2.2.1 a c ha hr)
      · rcases Nat.lt_or_ge h1.cells.length a with hgt | hle2
        · rw [read_concat_gt h1 _ hgt] at hr
          cases hr
        · have ha' : a = h1.cells.length := by omega
          subst ha'
          rw [read_concat_length] at hr
          cases hr
          intro w hw
          exact valBelow_mono (by simp) (hes.2.1 w hw)
    · intro hpu a sl ha hr
      rcases Nat.lt_or_ge a h1.cells.length with hlt | hge
      · rw [read_append h1 _ a hlt] at hr
        exact hes.2.2.2.1 (by simpa [pureV] using hpu) a sl ha hr
      · rcases Nat.lt_or_ge h1.cells.length a with hgt | hle2
        · rw [read_concat_gt h1 _ hgt] at hr
          cases hr
        · have ha' : a = h1.cells.length := by omega
          subst ha'
          rw [read_concat_length] at hr
          cases hr
    · intro f hf hE hle
      have hf' : gdepthElems l + 1 ≤ f := by simpa [gdepthV] using hf
      cases f with
      | zero => omega
      | succ f =>
        have hr : hE.read h1.cells.length = some (.arrC es) :=
          heapLE_read hle (read_concat_length h1 _)
        have hview := hes.2.2.2.2 f (by omega) hE
          (heapLE_trans ⟨[.arrC es], rfl⟩ hle)
        simp [viewV, hr, hview]

theorem allocFields_spec : ∀ (m : List (String × GoVal)) (h : Heap)
    (fs : List (String × HVal)) (h1 : Heap), allocFields m h = (fs, h1) →
    heapLE h h1 ∧ (∀ kv ∈ fs, valBelow h1.cells.length (Prod.snd kv)) ∧
    (∀ a c, h.cells.length ≤ a → h1.read a = some c →
      cellBelow h1.cells.length c) ∧
    (pureFields m = true → ∀ a l, h.cells.length ≤ a →
      h1.read a ≠ some (.strArrC l)) ∧
    (∀ f, gdepthFields m ≤ f → ∀ hE, heapLE h1 hE →
      viewFields f hE fs = some m)
  | [], h, fs, h1, heq => by
    simp only [allocFields, Prod.mk.injEq] at heq
    obtain ⟨hv, hh⟩ := heq
    subst hv
    subst hh
    refine ⟨heapLE_refl h, by simp, ?_, ?_, ?_⟩
    · intro a c ha hr
      exact absurd (read_lt_length hr) (Nat.not_lt.2 ha)
    · intro _ a l ha hr
      exact absurd (read_lt_length hr) (Nat.not_lt.2 ha)
    · intro f _ hE _
      simp [viewFields]
  | (k, v) :: rest, h, fs, h1, heq => by
    rcases hp : allocVal v h with ⟨hv, ha⟩
    rcases hq : allocFields rest ha with ⟨frest, hb⟩
    have hvs := allocVal_spec v h hv ha hp
    have hrs := allocFields_spec rest ha frest hb hq
    simp only [allocFields, hp, hq, Prod.mk.injEq] at heq
    obtain ⟨hfs, hh⟩ := heq
    subst hfs
    subst hh
    have hab : ha.cells.length ≤ hb.cells.length := heapLE_length hrs.1
    refine ⟨heapLE_trans hvs.1 hrs.1, ?_, ?_, ?_, ?_⟩
    · intro kv hkv
      rcases List.mem_cons.1 hkv with hkv | hkv
      · subst hkv
        exact valBelow_mono hab hvs.2.1
      · exact hrs.2.1 kv hkv
    · intro a c hge hr
      rcases Nat.lt_or_ge a ha.cells.length with hlt | hge2
      · rw [heapLE_read_lt hrs.1 hlt] at hr
        exact cellBelow_mono hab (hvs.2.2.1 a c hge hr)
      · exact hrs.2.2.1 a c hge2 hr
    · intro hpu a l hge hr
      have hpu2 := by simpa [pureFields, Bool.and_eq_true] using hpu
      rcases Nat.lt_or_ge a ha.cells.length with hlt | hge2
      · rw [heapLE_read_lt hrs.1 hlt] at hr
        exact hvs.2.2.2.1 hpu2.1 a l hge hr
      · exact hrs.2.2.2.1 hpu2.2 a l hge2 hr
    · intro f hf hE hle
      have hmax : gdepthV v ≤ f ∧ gdepthFields rest ≤ f := by
        simp only [gdepthFields, max_le_iff] at hf
        exact hf
      have h1v := hvs.2.2.2.2 f hmax.1 hE (heapLE_trans hrs.1 hle)
      have h2v := hrs.2.2.2.2 f hmax.2 hE hle
      simp [viewFields, h1v, h2v]

theorem allocElems_spec : ∀ (l : List GoVal) (h : Heap) (es : List HVal)
    (h1 : Heap), allocElems l h = (es, h1) →
    heapLE h h1 ∧ (∀ w ∈ es, valBelow h1.cells.length w) ∧
    (∀ a c, h.cells.length ≤ a → h1.read a = some c →
      cellBelow h1.cells.length c) ∧
    (pureElems l = true → ∀ a sl, h.cells.length ≤ a →
      h1.read a ≠ some (.strArrC sl)) ∧
    (∀ f, gdepthElems l ≤ f → ∀ hE, heapLE h1 hE → viewElems f hE es = some l)
  | [], h, es, h1, heq => by
    simp only [allocElems, Prod.mk.injEq] at heq
    obtain ⟨hv, hh⟩ := heq
    subst hv
    subst hh
    refine ⟨heapLE_refl h, by simp, ?_, ?_, ?_⟩
    · intro a c ha hr
      exact absurd (read_lt_length hr) (Nat.not_lt.2 ha)
    · intro _ a l ha hr
      exact absurd (read_lt_length hr) (Nat.not_lt.2 ha)
    · intro f _ hE _
      simp [viewElems]
  | v :: rest, h, es, h1, heq => by
    rcases hp : allocVal v h with ⟨hv, ha⟩
    rcases hq : allocElems rest ha with ⟨erest, hb⟩
    have hvs := allocVal_spec v h hv ha hp
    have hrs := allocElems_spec rest ha erest hb hq
    simp only [allocElems, hp, hq, Prod.mk.injEq] at heq
    obtain ⟨hes, hh⟩ := heq
    subst hes
    subst hh
    have hab : ha.cells.length ≤ hb.cells.length := heapLE_length hrs.1
    refine ⟨heapLE_trans hvs.1 hrs.1, ?_, ?_, ?_, ?_⟩
    · intro w hw
      rcases List.mem_cons.1 hw with hw | hw
      · subst hw
        exact valBelow_mono hab hvs.2.1
      · exact hrs.2.1 w hw
    · intro a c hge hr
      rcases Nat.lt_or_ge a ha.cells.length with hlt | hge2
      · rw [heapLE_read_lt hrs.1 hlt] at hr
        exact cellBelow_mono hab (hvs.2.2.1 a c hge hr)
      · exact hrs.2.2.1 a c hge2 hr
    · intro hpu a sl hge hr
      have hpu2 := by simpa [pureElems, Bool.and_eq_true] using hpu
      rcases Nat.lt_or_ge a ha.cells.length with hlt | hge2
      · rw [heapLE_read_lt hrs.1 hlt] at hr
        exact hvs.2.2.2.1 hpu2.1 a sl hge hr
      · exact hrs.2.2.2.1 hpu2.2 a sl hge2 hr
    · intro f hf hE hle
      have hmax : gdepthV v ≤ f ∧ gdepthElems rest ≤ f := by
        simp only [gdepthElems, max_le_iff] at hf
        exact hf
      have h1v := hvs.2.2.2.2 f hmax.1 hE (heapLE_trans hrs.1 hle)
      have h2v := hrs.2.2.2.2 f hmax.2 hE hle
      simp [viewElems, h1v, h2v]

end

/-- The deep copy of a value confined to the JSON-decoded region below
`n` allocates only fresh cells, returns a value whose references are all
fresh, and preserves the view. -/
theorem deepCopy_spec (n : Nat) : ∀ fuel : Nat,
    (∀ h v v2 h2, deepCopyValH fuel h v = some (v2, h2) →
      segBelow n h → noShareBelow n h → n ≤ h.cells.length → valBelow n v →
      heapLE h h2 ∧ valAtLeast h.cells.length v2 ∧
      (∀ a c, h.cells.length ≤ a → h2.read a = some c →
        cellAtLeast h.cells.length c) ∧
      (∀ f g hE, heapLE h2 hE → viewV f h v = some g →
        viewV f hE v2 = some g)) ∧
    (∀ h l l2 h2, deepCopyFieldsH fuel h l = some (l2, h2) →
      segBelow n h → noShareBelow n h → n ≤ h.cells.length →
      (∀ kv ∈ l, valBelow n (Prod.snd kv)) →
      heapLE h h2 ∧ (∀ kv ∈ l2, valAtLeast h.cells.length (Prod.snd kv)) ∧
      (∀ a c, h.cells.length ≤ a → h2.read a = some c →
        cellAtLeast h.cells.length c) ∧
      (∀ f gl hE, heapLE h2 hE → viewFields f h l = some gl →
        viewFields f hE l2 = some gl)) ∧
    (∀ h l l2 h2, deepCopyElemsH fuel h l = some (l2, h2) →
      segBelow n h → noShareBelow n h → n ≤ h.cells.length →
      (∀ w ∈ l, valBelow n w) →
      heapLE h h2 ∧ (∀ w ∈ l2, valAtLeast h.cells.length w) ∧
      (∀ a c, h.cells.length ≤ a → h2.read a = some c →
        cellAtLeast h.cells.length c) ∧
      (∀ f gl hE, heapLE h2 hE → viewElems f h l = some gl →
        viewElems f hE l2 = some gl)) := by
  intro fuel
  induction fuel with
  | zero =>
    refine ⟨?_, ?_, ?_⟩
    · intro h v v2 h2 hcopy
      simp [deepCopyValH] at hcopy
    · intro h l l2 h2 hcopy hseg hns hn hl
      cases l with
      | nil =>
        simp only [deepCopyFieldsH, Option.some.injEq, Prod.mk.injEq] at hcopy
        obtain ⟨hl2, hh2⟩ := hcopy
        subst hl2
        subst hh2
        refine ⟨heapLE_refl h, by simp, ?_, ?_⟩
        · intro a c ha hr
          exact absurd (read_lt_length hr) (Nat.not_lt.2 ha)
        · intro f gl hE hle hv
          cases gl with
          | nil => simp [viewFields]
          | cons p rest => simp [viewFields] at hv
      | cons p rest =>
        obtain ⟨k, v⟩ := p
        simp [deepCopyFieldsH, deepCopyValH] at hcopy
    · intro h l l2 h2 hcopy hseg hns hn hl
      cases l with
      | nil =>
        simp only [deepCopyElemsH, Option.some.injEq, Prod.mk.injEq] at hcopy
        obtain ⟨hl2, hh2⟩ := hcopy
        subst hl2
        subst hh2
        refine ⟨heapLE_refl h, by simp, ?_, ?_⟩
        · intro a c ha hr
          exact absurd (read_lt_length hr) (Nat.not_lt.2 ha)
        · intro f gl hE hle hv
          cases gl with
          | nil => simp [viewElems]
          | cons p rest => simp [viewElems] at hv
      | cons v rest => simp [deepCopyElemsH, deepCopyValH] at hcopy
  | succ fuel ih =>
    have hprim : ∀ (h : Heap) (v2 : HVal) (h2 : Heap) (v : HVal),
        (∀ f g (hX : Heap), viewV f h v = some g → viewV f hX v = some g) →
        valAtLeast h.cells.length v →
        some (v, h) = some (v2, h2) →
        heapLE h h2 ∧ valAtLeast h.cells.length v2 ∧
        (∀ a c, h.cells.length ≤ a → h2.read a = some c →
          cellAtLeast h.cells.length c) ∧
        (∀ f g hE, heapLE h2 hE → viewV f h v = some g →
          viewV f hE v2 = some g) := by
      intro h v2 h2 v hview hva heq
      simp only [Option.some.injEq, Prod.mk.injEq] at heq
      obtain ⟨hv2, hh2⟩ := heq
      subst hv2
      subst hh2
      refine ⟨heapLE_refl h, hva, ?_, ?_⟩
      · intro a c ha hr
        exact absurd (read_lt_length hr) (Nat.not_lt.2 ha)
      · intro f g hE _ hv
        exact hview f g hE hv
    have hval : ∀ h v v2 h2, deepCopyValH (fuel + 1) h v = some (v2, h2) →
        segBelow n h → noShareBelow n h → n ≤ h.cells.length → valBelow n v →
        heapLE h h2 ∧ valAtLeast h.cells.length v2 ∧
        (∀ a c, h.cells.length ≤ a → h2.read a = some c →
          cellAtLeast h.cells.length c) ∧
        (∀ f g hE, heapLE h2 hE → viewV f h v = some g →
          viewV f hE v2 = some g) := by
      intro h v v2 h2 hcopy hseg hns hn hv
      cases v with
      | str s =>
        simp only [deepCopyValH] at hcopy
        exact hprim h v2 h2 _ (fun f g hX hvw => by
          cases f with
          | zero => simp [viewV] at hvw
          | succ f => simpa [viewV] using hvw) trivial hcopy
      | int m =>
        simp only [deepCopyValH] at hcopy
        exact hprim h v2 h2 _ (fun f g hX hvw => by
          cases f with
          | zero => simp [viewV] at hvw
          | succ f => simpa [viewV] using hvw) trivial hcopy
      | float m =>
        simp only [deepCopyValH] at hcopy
        exact hprim h v2 h2 _ (fun f g hX hvw => by
          cases f with
          | zero => simp [viewV] at hvw
          | succ f => simpa [viewV] using hvw) trivial hcopy
      | bool b =>
        simp only [deepCopyValH] at hcopy
        exact hprim h v2 h2 _ (fun f g hX hvw => by
          cases f with
          | zero => simp [viewV] at hvw
          | succ f => simpa [viewV] using hvw) trivial hcopy
      | null =>
        simp only [deepCopyValH] at hcopy
        exact hprim h v2 h2 _ (fun f g hX hvw => by
          cases f with
          | zero => simp [viewV] at hvw
          | succ f => simpa [viewV] using hvw) trivial hcopy
      | ref a =>
        have ha : a < n := hv
        simp only [deepCopyValH] at hcopy
        rcases hr : h.read a with _ | c
        · rw [hr] at hcopy
          cases hcopy
        · rw [hr] at hcopy
          cases c with
          | strArrC sl => exact absurd hr (hns a sl ha)
          | objC fields =>
            dsimp only at hcopy
            rcases hm : deepCopyFieldsH fuel h fields with _ | p
            · rw [hm] at hcopy
              cases hcopy
            · rw [hm] at hcopy
              obtain ⟨fields2, h1⟩ := p
              simp only [Heap.alloc, Option.some.injEq, Prod.mk.injEq] at hcopy
              obtain ⟨hv2, hh2⟩ := hcopy
              subst hv2
              subst hh2
              have hcb := hseg a _ ha hr
              have hfs := ih.2.1 h fields fields2 h1 hm hseg hns hn
                (fun kv hkv => hcb kv hkv)
              have h1len : h.cells.length ≤ h1.cells.length :=
                heapLE_length hfs.1
              refine ⟨heapLE_trans hfs.1 ⟨[.objC fields2], rfl⟩, ?_, ?_, ?_⟩
              · exact h1len
              · intro b c hb hrb
                rcases Nat.lt_or_ge b h1.cells.length with hlt | hge
                · rw [read_append h1 _ b hlt] at hrb
                  exact hfs.2.2.1 b c hb hrb
                · rcases Nat.lt_or_ge h1.cells.length b with hgt | hle2
                  · rw [read_concat_gt h1 _ hgt] at hrb
                    cases hrb
                  · have hb' : b = h1.cells.length := by omega
                    subst hb'
                    rw [read_concat_length] at hrb
                    cases hrb
                    intro kv hkv
                    exact hfs.2.1 kv hkv
              · intro f g hE hle hvw
                cases f with
                | zero => simp [viewV] at hvw
                | succ f =>
                  simp only [viewV, hr] at hvw
                  rcases hgf : viewFields f h fields with _ | gf
                  · rw [hgf] at hvw
                    cases hvw
                  · rw [hgf] at hvw
                    have hrE : hE.read h1.cells.length = some (.objC fields2) :=
                      heapLE_read hle (read_concat_length h1 _)
                    have hvf := hfs.2.2.2 f gf hE
                      (heapLE_trans ⟨[.objC fields2], rfl⟩ hle) hgf
                    simp only [viewV, hrE]
                    rw [hvf]
                    exact hvw
          | arrC elems =>
            dsimp only at hcopy
            rcases hm : deepCopyElemsH fuel h elems with _ | p
            · rw [hm] at hcopy
              cases hcopy
            · rw [hm] at hcopy
              obtain ⟨elems2, h1⟩ := p
              simp only [Heap.alloc, Option.some.injEq, Prod.mk.injEq] at hcopy
              obtain ⟨hv2, hh2⟩ := hcopy
              subst hv2
              subst hh2
              have hcb := hseg a _ ha hr
              have hes := ih.2.2 h elems elems2 h1 hm hseg hns hn
                (fun w hw => hcb w hw)
              have h1len : h.cells.length ≤ h1.cells.length :=
                heapLE_length hes.1
              refine ⟨heapLE_trans hes.1 ⟨[.arrC elems2], rfl⟩, ?_, ?_, ?_⟩
              · exact h1len
              · intro b c hb hrb
                rcases Nat.lt_or_ge b h1.cells.length with hlt | hge
                · rw [read_append h1 _ b hlt] at hrb
                  exact hes.2.2.1 b c hb hrb
                · rcases Nat.lt_or_ge h1.cells.length b with hgt | hle2
                  · rw [read_concat_gt h1 _ hgt] at hrb
                    cases hrb
                  · have hb' : b = h1.cells.length := by omega
                    subst hb'
                    rw [read_concat_length] at hrb
                    cases hrb
                    intro w hw
                    exact hes.2.1 w hw
              · intro f g hE hle hvw
                cases f with
                | zero => simp [viewV] at hvw
                | succ f =>
                  simp only [viewV, hr] at hvw
                  rcases hge2 : viewElems f h elems with _ | ge
                  · rw [hge2] at hvw
                    cases hvw
                  · rw [hge2] at hvw
                    have hrE : hE.read h1.cells.length = some (.arrC elems2) :=
                      heapLE_read hle (read_concat_length h1 _)
                    have hve := hes.2.2.2 f ge hE
                      (heapLE_trans ⟨[.arrC elems2], rfl⟩ hle) hge2
                    simp only [viewV, hrE]
                    rw [hve]
                    exact hvw
    refine ⟨hval, ?_, ?_⟩
    · have hflds : ∀ l h l2 h2,
          deepCopyFieldsH (fuel + 1) h l = some (l2, h2) →
          segBelow n h → noShareBelow n h → n ≤ h.cells.length →
          (∀ kv ∈ l, valBelow n (Prod.snd kv)) →
          heapLE h h2 ∧
          (∀ kv ∈ l2, valAtLeast h.cells.length (Prod.snd kv)) ∧
          (∀ a c, h.cells.length ≤ a → h2.read a = some c →
            cellAtLeast h.cells.length c) ∧
          (∀ f gl hE, heapLE h2 hE → viewFields f h l = some gl →
            viewFields f hE l2 = some gl) := by
        intro l
        induction l with
        | nil =>
          intro h l2 h2 hcopy hseg hns hn hl
          simp only [deepCopyFieldsH, Option.some.injEq,
            Prod.mk.injEq] at hcopy
          obtain ⟨hl2, hh2⟩ := hcopy
          subst hl2
          subst hh2
          refine ⟨heapLE_refl h, by simp, ?_, ?_⟩
          · intro a c ha hr
            exact absurd (read_lt_length hr) (Nat.not_lt.2 ha)
          · intro f gl hE hle hv
            cases gl with
            | nil => simp [viewFields]
            | cons p rest => simp [viewFields] at hv
        | cons p rest ihr =>
          obtain ⟨k, v⟩ := p
          intro h l2 h2 hcopy hseg hns hn hl
          simp only [deepCopyFieldsH] at hcopy
          rcases hcv : deepCopyValH (fuel + 1) h v with _ | p1
          · rw [hcv] at hcopy
            cases hcopy
          · rw [hcv] at hcopy
            obtain ⟨v2, h1⟩ := p1
            dsimp only at hcopy
            rcases hcr : deepCopyFieldsH (fuel + 1) h1 rest with _ | p2
            · rw [hcr] at hcopy
              cases hcopy
            · rw [hcr] at hcopy
              obtain ⟨rest2, hb⟩ := p2
              simp only [Option.some.injEq, Prod.mk.injEq] at hcopy
              obtain ⟨hl2, hh2⟩ := hcopy
              subst hl2
              subst hh2
              have hvs := hval h v v2 h1 hcv hseg hns hn
                (hl (k, v) (List.mem_cons_self _ _))
              have hpre1 : prefixEq n h h1 := heapLE_prefixEq hvs.1 hn
              have hrs := ihr h1 rest2 hb hcr
                (segBelow_of_prefixEq hseg hpre1)
                (noShareBelow_of_prefixEq hns hpre1)
                (Nat.le_trans hn (heapLE_length hvs.1))
                (fun kv hkv => hl kv (List.mem_cons.2 (Or.inr hkv)))
              have h1len : h.cells.length ≤ h1.cells.length :=
                heapLE_length hvs.1
              refine ⟨heapLE_trans hvs.1 hrs.1, ?_, ?_, ?_⟩
              · intro kv hkv
                rcases List.mem_cons.1 hkv with hkv | hkv
                · subst hkv
                  exact hvs.2.1
                · exact valAtLeast_mono h1len (hrs.2.1 kv hkv)
              · intro a c ha hr
                rcases Nat.lt_or_ge a h1.cells.length with hlt | hge
                · rw [heapLE_read_lt hrs.1 hlt] at hr
                  exact hvs.2.2.1 a c ha hr
                · exact cellAtLeast_mono h1len (hrs.2.2.1 a c hge hr)
              · intro f gl hE hle hvw
                cases gl with
                | nil =>
                  simp only [viewFields] at hvw
                  rcases hx : viewV f h v with _ | gv <;> rw [hx] at hvw
                  · cases hvw
                  · rcases hy : viewFields f h rest with _ | gr <;>
                      rw [hy] at hvw
                    · cases hvw
                    · cases hvw
                | cons g0 grest =>
                  simp only [viewFields] at hvw
                  rcases hx : viewV f h v with _ | gv <;> rw [hx] at hvw
                  · cases hvw
                  · rcases hy : viewFields f h rest with _ | gr <;>
                      rw [hy] at hvw
                    · cases hvw
                    · simp only [Option.some.injEq,
                        List.cons.injEq] at hvw
                      obtain ⟨hg0, hgrest⟩ := hvw
                      have hone := hvs.2.2.2 f gv hE
                        (heapLE_trans hrs.1 hle) hx
                      have hyr := (view_heapLE f).2.1 h h1 rest gr hvs.1 hy
                      have hrest := hrs.2.2.2 f gr hE hle hyr
                      simp only [viewFields, hone, hrest, hg0, hgrest]
      intro h l l2 h2 hcopy hseg hns hn hl
      exact hflds l h l2 h2 hcopy hseg hns hn hl
    · have helems : ∀ l h l2 h2,
          deepCopyElemsH (fuel + 1) h l = some (l2, h2) →
          segBelow n h → noShareBelow n h → n ≤ h.cells.length →
          (∀ w ∈ l, valBelow n w) →
          heapLE h h2 ∧ (∀ w ∈ l2, valAtLeast h.cells.length w) ∧
          (∀ a c, h.cells.length ≤ a → h2.read a = some c →
            cellAtLeast h.cells.length c) ∧
          (∀ f gl hE, heapLE h2 hE → viewElems f h l = some gl →
            viewElems f hE l2 = some gl) := by
        intro l
        induction l with
        | nil =>
          intro h l2 h2 hcopy hseg hns hn hl
          simp only [deepCopyElemsH, Option.some.injEq,
            Prod.mk.injEq] at hcopy
          obtain ⟨hl2, hh2⟩ := hcopy
          subst hl2
          subst hh2
          refine ⟨heapLE_refl h, by simp, ?_, ?_⟩
          · intro a c ha hr
            exact absurd (read_lt_length hr) (Nat.not_lt.2 ha)
          · intro f gl hE hle hv
            cases gl with
            | nil => simp [viewElems]
            | cons p rest => simp [viewElems] at hv
        | cons v rest ihr =>
          intro h l2 h2 hcopy hseg hns hn hl
          simp only [deepCopyElemsH] at hcopy
          rcases hcv : deepCopyValH (fuel + 1) h v with _ | p1
          · rw [hcv] at hcopy
            cases hcopy
          · rw [hcv] at hcopy
            obtain ⟨v2, h1⟩ := p1
            dsimp only at hcopy
            rcases hcr : deepCopyElemsH (fuel + 1) h1 rest with _ | p2
            · rw [hcr] at hcopy
              cases hcopy
            · rw [hcr] at hcopy
              obtain ⟨rest2, hb⟩ := p2
              simp only [Option.some.injEq, Prod.mk.injEq] at hcopy
              obtain ⟨hl2, hh2⟩ := hcopy
              subst hl2
              subst hh2
              have hvs := hval h v v2 h1 hcv hseg hns hn
                (hl v (List.mem_cons_self _ _))
              have hpre1 : prefixEq n h h1 := heapLE_prefixEq hvs.1 hn
              have hrs := ihr h1 rest2 hb hcr
                (segBelow_of_prefixEq hseg hpre1)
                (noShareBelow_of_prefixEq hns hpre1)
                (Nat.le_trans hn (heapLE_length hvs.1))
                (fun w hw => hl w (List.mem_cons.2 (Or.inr hw)))
              have h1len : h.cells.length ≤ h1.cells.length :=
                heapLE_length hvs.1
              refine ⟨heapLE_trans hvs.1 hrs.1, ?_, ?_, ?_⟩
              · intro w hw
                rcases List.mem_cons.1 hw with hw | hw
                · subst hw
                  exact hvs.2.1
                · exact valAtLeast_mono h1len (hrs.2.1 w hw)
              · intro a c ha hr
                rcases Nat.lt_or_ge a h1.cells.length with hlt | hge
                · rw [heapLE_read_lt hrs.1 hlt] at hr
                  exact hvs.2.2.1 a c ha hr
                · exact cellAtLeast_mono h1len (hrs.2.2.1 a c hge hr)
              · intro f gl hE hle hvw
                cases gl with
                | nil =>
                  simp only [viewElems] at hvw
                  rcases hx : viewV f h v with _ | gv <;> rw [hx] at hvw
                  · cases hvw
                  · rcases hy : viewElems f h rest with _ | gr <;>
                      rw [hy] at hvw
                    · cases hvw
                    · cases hvw
                | cons g0 grest =>
                  simp only [viewElems] at hvw
                  rcases hx : viewV f h v with _ | gv <;> rw [hx] at hvw
                  · cases hvw
                  · rcases hy : viewElems f h rest with _ | gr <;>
                      rw [hy] at hvw
                    · cases hvw
                    · simp only [Option.some.injEq,
                        List.cons.injEq] at hvw
                      obtain ⟨hg0, hgrest⟩ := hvw
                      have hone := hvs.2.2.2 f gv hE
                        (heapLE_trans hrs.1 hle) hx
                      have hyr := (view_heapLE f).2.2 h h1 rest gr hvs.1 hy
                      have hrest := hrs.2.2.2 f gr hE hle hyr
                      simp only [viewElems, hone, hrest, hg0, hgrest]
      intro h l l2 h2 hcopy hseg hns hn hl
      exact helems l h l2 h2 hcopy hseg hns hn hl

/-! ### Loading invariants -/

theorem lookupAddr_storeAddr_self (s : List (String × Nat)) (k : String)
    (a : Nat) : lookupAddr (storeAddr s k a) k = some a := by
  induction s with
  | nil => simp [storeAddr, lookupAddr]
  | cons p rest ih =>
    obtain ⟨k1, b⟩ := p
    by_cases hk : k1 = k
    · simp [storeAddr, hk, lookupAddr]
    · simp [storeAddr, hk, lookupAddr, ih]

theorem lookupAddr_storeAddr_ne (s : List (String × Nat)) (k k' : String)
    (a : Nat) (hne : k' ≠ k) :
    lookupAddr (storeAddr s k a) k' = lookupAddr s k' := by
  induction s with
  | nil => simp [storeAddr, lookupAddr, Ne.symm hne]
  | cons p rest ih =>
    obtain ⟨k1, b⟩ := p
    by_cases hk : k1 = k
    · subst hk
      simp [storeAddr, lookupAddr, Ne.symm hne]
    · by_cases hk' : k1 = k'
      · simp [storeAddr, hk, lookupAddr, hk', hne]
      · simp [storeAddr, hk, lookupAddr, hk', ih]

/-- Every cell of the heap references only allocated addresses. -/
def closedHeap (h : Heap) : Prop :=
  ∀ a c, h.read a = some c → cellBelow h.cells.length c

/-- No `[]string` cell anywhere (true after loading JSON documents). -/
def noShareHeap (h : Heap) : Prop :=
  ∀ a l, h.read a ≠ some (.strArrC l)

/-- All stored template addresses are allocated. -/
def storeBelow (s : List (String × Nat)) (n : Nat) : Prop :=
  ∀ ty a, lookupAddr s ty = some a → a < n

theorem closedHeap_segBelow {h : Heap} (hc : closedHeap h) :
    segBelow h.cells.length h := fun a c _ hr => hc a c hr

theorem noShareHeap_noShareBelow {h : Heap} {n : Nat} (hns : noShareHeap h) :
    noShareBelow n h := fun a l _ => hns a l

/-- Loading one document preserves heap closedness and purity, stores it
at a fresh address, and the loaded value views back to the document. -/
theorem loadOne_props {h : Heap} {m : GoMap} {addr : Nat} {h' : Heap}
    (hl : loadOne h m = (addr, h')) (hc : closedHeap h) (hns : noShareHeap h)
    (hpure : pureFields m = true) :
    heapLE h h' ∧ addr < h'.cells.length ∧ closedHeap h' ∧ noShareHeap h' ∧
    (∀ f, gdepthFields m + 1 ≤ f → ∀ hE, heapLE h' hE →
      viewV f hE (.ref addr) = some (.obj m)) := by
  rcases hp : allocFields m h with ⟨fs, h1⟩
  have hfs := allocFields_spec m h fs h1 hp
  simp only [loadOne, hp, Heap.alloc, Prod.mk.injEq] at hl
  obtain ⟨haddr, hh'⟩ := hl
  subst haddr
  subst hh'
  have hlen' : (Heap.mk (h1.cells ++ [Cell.objC fs])).cells.length =
      h1.cells.length + 1 := by simp
  have hle1 : heapLE h1 ⟨h1.cells ++ [Cell.objC fs]⟩ := ⟨[Cell.objC fs], rfl⟩
  have hh1 : h.cells.length ≤ h1.cells.length := heapLE_length hfs.1
  have hmono1 : h.cells.length ≤
      (Heap.mk (h1.cells ++ [Cell.objC fs])).cells.length := by
    rw [hlen']
    omega
  have hmono2 : h1.cells.length ≤
      (Heap.mk (h1.cells ++ [Cell.objC fs])).cells.length := by
    rw [hlen']
    omega
  refine ⟨heapLE_trans hfs.1 hle1, ?_, ?_, ?_, ?_⟩
  · rw [hlen']
    omega
  · intro x c hr
    rcases Nat.lt_or_ge x h1.cells.length with hlt | hge
    · rw [read_append h1 _ x hlt] at hr
      rcases Nat.lt_or_ge x h.cells.length with hlt2 | hge2
      · rw [heapLE_read_lt hfs.1 hlt2] at hr
        exact cellBelow_mono hmono1 (hc x c hr)
      · exact cellBelow_mono hmono2 (hfs.2.2.1 x c hge2 hr)
    · rcases Nat.lt_or_ge h1.cells.length x with hgt | hle2
      · rw [read_concat_gt h1 _ hgt] at hr
        cases hr
      · have hx : x = h1.cells.length := by omega
        subst hx
        rw [read_concat_length] at hr
        cases hr
        intro kv hkv
        exact valBelow_mono hmono2 (hfs.2.1 kv hkv)
  · intro x l hr
    rcases Nat.lt_or_ge x h1.cells.length with hlt | hge
    · rw [read_append h1 _ x hlt] at hr
      rcases Nat.lt_or_ge x h.cells.length with hlt2 | hge2
      · rw [heapLE_read_lt hfs.1 hlt2] at hr
        exact hns x l hr
      · exact hfs.2.2.2.1 hpure x l hge2 hr
    · rcases Nat.lt_or_ge h1.cells.length x with hgt | hle2
      · rw [read_concat_gt h1 _ hgt] at hr
        cases hr
      · have hx : x = h1.cells.length := by omega
        subst hx
        rw [read_concat_length] at hr
        cases hr
  · intro f hf hE hle
    cases f with
    | zero => omega
    | succ f =>
      have hrE : hE.read h1.cells.length = some (.objC fs) :=
        heapLE_read hle (read_concat_length h1 _)
      have hvf := hfs.2.2.2.2 f (by omega) hE (heapLE_trans hle1 hle)
      simp [viewV, hrE, hvf]

/-- The fold body of `LoadTemplates`. -/
def loadStep (st : MState) (p : String × GoMap) : MState :=
  let q := loadOne st.heap p.2
  { heap := q.2, store := storeAddr st.store p.1 q.1 }

theorem loadTemplatesH_eq_foldl (ts : List (String × GoMap)) :
    loadTemplatesH ts = ts.foldl loadStep ⟨⟨[]⟩, []⟩ := rfl

/-- Loading a document list preserves the load invariants, leaves other
store entries alone, and (for distinct type names) stores every document
at an address that views back to it. -/
theorem load_fold : ∀ (ts : List (String × GoMap)) (st : MState),
    (∀ p ∈ ts, pureFields (Prod.snd p) = true) →
    closedHeap st.heap → noShareHeap st.heap →
    storeBelow st.store st.heap.cells.length →
    heapLE st.heap (ts.foldl loadStep st).heap ∧
    closedHeap (ts.foldl loadStep st).heap ∧
    noShareHeap (ts.foldl loadStep st).heap ∧
    storeBelow (ts.foldl loadStep st).store
      (ts.foldl loadStep st).heap.cells.length ∧
    (∀ ty, ty ∉ ts.map Prod.fst →
      lookupAddr (ts.foldl loadStep st).store ty = lookupAddr st.store ty) ∧
    ((ts.map Prod.fst).Nodup → ∀ ty m, (ty, m) ∈ ts →
      ∃ a, lookupAddr (ts.foldl loadStep st).store ty = some a ∧
        ∀ f, gdepthFields m + 1 ≤ f →
          viewV f (ts.foldl loadStep st).heap (.ref a) = some (.obj m))
  | [], st => by
    intro hpure hc hns hsb
    refine ⟨heapLE_refl _, hc, hns, hsb, fun ty _ => rfl, ?_⟩
    intro _ ty m hm
    simp at hm
  | (ty0, m0) :: rest, st => by
    intro hpure hc hns hsb
    rcases hl : loadOne st.heap m0 with ⟨addr, h'⟩
    have hone := loadOne_props hl hc hns
      (hpure (ty0, m0) (List.mem_cons_self _ _))
    have hst1 : loadStep st (ty0, m0) = ⟨h', storeAddr st.store ty0 addr⟩ := by
      simp [loadStep, hl]
    have hsb1 : storeBelow (storeAddr st.store ty0 addr) h'.cells.length := by
      intro ty a hla
      by_cases hty : ty = ty0
      · subst hty
        rw [lookupAddr_storeAddr_self] at hla
        cases hla
        exact hone.2.1
      · rw [lookupAddr_storeAddr_ne _ _ _ _ hty] at hla
        exact Nat.lt_of_lt_of_le (hsb ty a hla) (heapLE_length hone.1)
    have hrest := load_fold rest ⟨h', storeAddr st.store ty0 addr⟩
      (fun p hp => hpure p (List.mem_cons.2 (Or.inr hp)))
      hone.2.2.1 hone.2.2.2.1 hsb1
    have hfold : ((ty0, m0) :: rest).foldl loadStep st =
        rest.foldl loadStep ⟨h', storeAddr st.store ty0 addr⟩ := by
      rw [List.foldl_cons, hst1]
    rw [hfold]
    refine ⟨heapLE_trans hone.1 hrest.1, hrest.2.1, hrest.2.2.1,
      hrest.2.2.2.1, ?_, ?_⟩
    · intro ty hty
      simp only [List.map_cons, List.mem_cons, not_or] at hty
      rw [hrest.2.2.2.2.1 ty hty.2, lookupAddr_storeAddr_ne _ _ _ _ hty.1]
    · intro hnd ty m hm
      simp only [List.map_cons, List.nodup_cons] at hnd
      rcases List.mem_cons.1 hm with hm | hm
      · injection hm with hty hm0
        subst hty
        subst hm0
        refine ⟨addr, ?_, ?_⟩
        · rw [hrest.2.2.2.2.1 ty hnd.1, lookupAddr_storeAddr_self]
        · intro f hf
          exact hone.2.2.2.2 f hf _ hrest.1
      · exact hrest.2.2.2.2.2 hnd.2 ty m hm

/-! ### Write confinement of the update operations -/

/-- `h'` arose from `h` by writes at addresses `≥ n` and fresh
allocations only: the template region below `n` is untouched. -/
def Conf (n : Nat) (h h' : Heap) : Prop :=
  prefixEq n h h' ∧ segAtLeast n h' ∧ h.cells.length ≤ h'.cells.length

theorem Conf_refl {n : Nat} {h : Heap} (hseg : segAtLeast n h) :
    Conf n h h := ⟨prefixEq_refl n h, hseg, Nat.le_refl _⟩

theorem Conf_trans {n : Nat} {h h1 h2 : Heap} (a : Conf n h h1)
    (b : Conf n h1 h2) : Conf n h h2 :=
  ⟨prefixEq_trans a.1 b.1, b.2.1, Nat.le_trans a.2.2 b.2.2⟩

theorem writeObjField_length (h : Heap) (a : Nat) (k : String) (v : HVal) :
    (writeObjField h a k v).cells.length = h.cells.length := by
  unfold writeObjField
  rcases hr : h.read a with _ | c
  · rfl
  · cases c with
    | objC fields => exact write_length h a _
    | arrC elems => rfl
    | strArrC l => rfl

theorem writeObjField_prefixEq {n : Nat} (h : Heap) (a : Nat) (k : String)
    (v : HVal) (ha : n ≤ a) : prefixEq n h (writeObjField h a k v) := by
  unfold writeObjField
  rcases hr : h.read a with _ | c
  · exact prefixEq_refl n h
  · cases c with
    | objC fields =>
      intro b hb
      exact read_write_ne h a b _ (by omega)
    | arrC elems => exact prefixEq_refl n h
    | strArrC l => exact prefixEq_refl n h

theorem writeObjField_segAtLeast {n : Nat} {h : Heap} {a : Nat} {k : String}
    {v : HVal} (hseg : segAtLeast n h) (hv : valAtLeast n v) :
    segAtLeast n (writeObjField h a k v) := by
  unfold writeObjField
  rcases hr : h.read a with _ | c
  · exact hseg
  · cases c with
    | objC fields =>
      intro b c2 hb hrb
      by_cases hba : b = a
      · subst hba
        rw [read_write_self h b _ (read_lt_length hr)] at hrb
        cases hrb
        intro kv hkv
        rcases objSet_mem hkv with hkv | hkv
        · subst hkv
          exact hv
        · exact hseg b _ hb hr kv hkv
      · rw [read_write_ne h a b _ hba] at hrb
        exact hseg b c2 hb hrb
    | arrC elems => exact hseg
    | strArrC l => exact hseg

theorem Conf_write {n : Nat} {h h1 : Heap} {a : Nat} (k : String) {v : HVal}
    (hc : Conf n h h1) (ha : n ≤ a) (hv : valAtLeast n v) :
    Conf n h (writeObjField h1 a k v) := by
  refine ⟨prefixEq_trans hc.1 (writeObjField_prefixEq h1 a k v ha), ?_, ?_⟩
  · exact writeObjField_segAtLeast hc.2.1 hv
  · rw [writeObjField_length]
    exact hc.2.2

theorem alloc_prefixEq {n : Nat} {h : Heap} (c : Cell)
    (hn : n ≤ h.cells.length) : prefixEq n h ⟨h.cells ++ [c]⟩ := by
  intro b hb
  exact read_append h [c] b (by omega)

theorem alloc_segAtLeast {n : Nat} {h : Heap} {c : Cell}
    (hseg : segAtLeast n h) (hcell : cellAtLeast n c) :
    segAtLeast n ⟨h.cells ++ [c]⟩ := by
  intro b c2 hb hrb
  rcases Nat.lt_or_ge b h.cells.length with hlt | hge
  · rw [read_append h [c] b hlt] at hrb
    exact hseg b c2 hb hrb
  · rcases Nat.lt_or_ge h.cells.length b with hgt | hle2
    · rw [read_concat_gt h c hgt] at hrb
      cases hrb
    · have hb' : b = h.cells.length := by omega
      subst hb'
      rw [read_concat_length] at hrb
      cases hrb
      exact hcell

theorem Conf_alloc {n : Nat} {h h1 : Heap} {c : Cell} (hc : Conf n h h1)
    (hn : n ≤ h.cells.length) (hcell : cellAtLeast n c) :
    Conf n h ⟨h1.cells ++ [c]⟩ := by
  refine ⟨prefixEq_trans hc.1 (alloc_prefixEq c (Nat.le_trans hn hc.2.2)),
    alloc_segAtLeast hc.2.1 hcell, ?_⟩
  have hlen := hc.2.2
  simp only [List.length_append, List.length_cons, List.length_nil]
  omega

theorem readObjField_atLeast {n : Nat} {h : Heap} {a : Nat} {k : String}
    {v : HVal} (hseg : segAtLeast n h) (ha : n ≤ a)
    (hr : readObjField h a k = some v) : valAtLeast n v := by
  unfold readObjField at hr
  rcases hcell : h.read a with _ | c
  · rw [hcell] at hr
    cases hr
  · rw [hcell] at hr
    cases c with
    | objC fields =>
      exact hseg a _ ha hcell _ (objGet_mem hr)
    | arrC elems => cases hr
    | strArrC l => cases hr

theorem updateHeadersH_conf {n : Nat} {h h1 : Heap} {tra : Nat}
    {cfg : DynamicConfig} (hc : Conf n h h1) (htra : n ≤ tra) :
    Conf n h (updateHeadersH h1 tra cfg) := by
  unfold updateHeadersH
  split
  · rename_i ha2 heq
    have hha : n ≤ ha2 := readObjField_atLeast hc.2.1 htra heq
    split
    · exact Conf_write _ hc hha trivial
    · exact hc
  · exact hc

theorem updateTransportH_conf {n : Nat} {h h1 : Heap} {ba : Nat}
    {cfg : DynamicConfig} (hc : Conf n h h1) (hba : n ≤ ba) :
    Conf n h (updateTransportH h1 ba cfg) := by
  unfold updateTransportH
  split
  · rename_i tra heq
    have htra : n ≤ tra := readObjField_atLeast hc.2.1 hba heq
    split
    · exact updateHeadersH_conf (Conf_write _ hc htra trivial) htra
    · exact hc
  · exact hc

theorem updateTLSH_conf {n : Nat} {h h1 : Heap} {ba : Nat}
    {cfg : DynamicConfig} (hc : Conf n h h1) (hba : n ≤ ba) :
    Conf n h (updateTLSH h1 ba cfg) := by
  unfold updateTLSH
  split
  · rename_i tla heq
    have htla : n ≤ tla := readObjField_atLeast hc.2.1 hba heq
    split
    · split
      · exact Conf_write _ hc htla trivial
      · exact hc
    · exact hc
  · exact hc

theorem updateOutboundsH_conf {n : Nat} {h h1 : Heap} {ta : Nat}
    {cfg : DynamicConfig} (hc : Conf n h h1) (hta : n ≤ ta) :
    Conf n h (updateOutboundsH h1 ta cfg) := by
  unfold updateOutboundsH
  split
  · rename_i oa heq
    have hoa : n ≤ oa := readObjField_atLeast hc.2.1 hta heq
    split
    · rename_i first rest heq2
      split
      · rename_i ba
        have hba : n ≤ ba :=
          hc.2.1 oa _ hoa heq2 _ (List.mem_cons_self _ _)
        split
        · exact updateTLSH_conf
            (updateTransportH_conf
              (Conf_write _ (Conf_write _ hc hba trivial) hba trivial) hba)
            hba
        · exact hc
      · exact hc
    · exact hc
  · exact hc

theorem updateDNSServer0H_conf {n : Nat} {h h1 : Heap} {s0 : HVal}
    {cfg : DynamicConfig} (hc : Conf n h h1) (hs : valAtLeast n s0) :
    Conf n h (updateDNSServer0H h1 s0 cfg) := by
  unfold updateDNSServer0H
  split
  · rename_i s0a
    split
    · exact Conf_write _ hc hs trivial
    · exact hc
  · exact hc

theorem updateDNSServer1H_conf {n : Nat} {h h1 : Heap} {s1 : HVal}
    {cfg : DynamicConfig} (hc : Conf n h h1) (hs : valAtLeast n s1) :
    Conf n h (updateDNSServer1H h1 s1 cfg) := by
  unfold updateDNSServer1H
  split
  · rename_i s1a
    split
    · exact Conf_write _ hc hs trivial
    · exact hc
  · exact hc

theorem updateDNSH_conf {n : Nat} {h h1 : Heap} {ta : Nat}
    {cfg : DynamicConfig} (hc : Conf n h h1) (hta : n ≤ ta) :
    Conf n h (updateDNSH h1 ta cfg) := by
  unfold updateDNSH
  split
  · rename_i da heq
    have hda : n ≤ da := readObjField_atLeast hc.2.1 hta heq
    split
    · split
      · rename_i sa heq2
        have hsa : n ≤ sa := readObjField_atLeast hc.2.1 hda heq2
        split
        · rename_i s0 s1 rest heq3
          have hs0 : valAtLeast n s0 :=
            hc.2.1 sa _ hsa heq3 _ (List.mem_cons_self _ _)
          have hs1 : valAtLeast n s1 :=
            hc.2.1 sa _ hsa heq3 _
              (List.mem_cons.2 (Or.inr (List.mem_cons_self _ _)))
          exact updateDNSServer1H_conf
            (updateDNSServer0H_conf hc hs0) hs1
        · exact hc
      · exact hc
    · exact hc
  · exact hc

theorem updateInbound0H_conf {n : Nat} {h h1 : Heap} {first : HVal}
    {cfg : DynamicConfig} (hc : Conf n h h1) (hn : n ≤ h.cells.length)
    (hs : valAtLeast n first) : Conf n h (updateInbound0H h1 first cfg) := by
  unfold updateInbound0H
  split
  · rename_i i0
    split
    · have hca : Conf n h (h1.alloc (.strArrC [cfg.tunAddress])).1 :=
        Conf_alloc hc hn trivial
      have hfresh : valAtLeast n
          (HVal.ref (h1.alloc (.strArrC [cfg.tunAddress])).2) := by
        show n ≤ h1.cells.length
        exact Nat.le_trans hn hc.2.2
      exact Conf_write _ (Conf_write _ hca hs hfresh) hs trivial
    · exact hc
  · exact hc

theorem updateInbound1H_conf {n : Nat} {h h1 : Heap} {second : HVal}
    {cfg : DynamicConfig} (hc : Conf n h h1) (hs : valAtLeast n second) :
    Conf n h (updateInbound1H h1 second cfg) := by
  unfold updateInbound1H
  split
  · rename_i i1
    split
    · exact Conf_write _ hc hs trivial
    · exact hc
  · exact hc

theorem updateInboundsH_conf {n : Nat} {h h1 : Heap} {ta : Nat}
    {cfg : DynamicConfig} (hc : Conf n h h1) (hta : n ≤ ta)
    (hn : n ≤ h.cells.length) : Conf n h (updateInboundsH h1 ta cfg) := by
  unfold updateInboundsH
  split
  · rename_i ia heq
    have hia : n ≤ ia := readObjField_atLeast hc.2.1 hta heq
    split
    · rename_i elems heq2
      have helems : ∀ w ∈ elems, valAtLeast n w := hc.2.1 ia _ hia heq2
      split
      · exact hc
      · rename_i first
        exact updateInbound0H_conf hc hn
          (helems first (List.mem_cons_self _ _))
      · rename_i first second rest
        exact updateInbound1H_conf
          (updateInbound0H_conf hc hn (helems first (List.mem_cons_self _ _)))
          (helems second (List.mem_cons.2 (Or.inr (List.mem_cons_self _ _))))
    · exact hc
  · exact hc

theorem setUUIDH_conf {n : Nat} {h h1 : Heap} {ta : Nat} {uuid : String}
    (hc : Conf n h h1) (hta : n ≤ ta) : Conf n h (setUUIDH h1 ta uuid) := by
  unfold setUUIDH
  split
  · rename_i oa heq
    have hoa : n ≤ oa := readObjField_atLeast hc.2.1 hta heq
    split
    · rename_i first rest heq2
      split
      · rename_i ba
        have hba : n ≤ ba :=
          hc.2.1 oa _ hoa heq2 _ (List.mem_cons_self _ _)
        split
        · split
          · exact Conf_write _ hc hba trivial
          · exact hc
        · exact hc
      · exact hc
    · exact hc
  · exact hc

theorem updateTemplateH_conf {n : Nat} {h h1 : Heap} {ta : Nat}
    {cfg : DynamicConfig} (hc : Conf n h h1) (hta : n ≤ ta)
    (hn : n ≤ h.cells.length) :
    Conf n h (updateTemplateWithDynamicConfigH h1 ta cfg) := by
  unfold updateTemplateWithDynamicConfigH
  exact updateInboundsH_conf
    (updateDNSH_conf (updateOutboundsH_conf hc hta) hta) hta hn

/-- `GetTemplate`'s deep copy of the stored template cell: the result is
entirely fresh, references only fresh cells, and views to exactly what
the original viewed to. -/
theorem deepCopyMapCell_spec {n fuel : Nat} {h : Heap} {a b : Nat}
    {h1 : Heap} (hcopy : deepCopyMapCellH fuel h a = some (b, h1))
    (hseg : segBelow n h) (hns : noShareBelow n h)
    (hn : n ≤ h.cells.length) (ha : a < n) :
    heapLE h h1 ∧ h.cells.length ≤ b ∧ b < h1.cells.length ∧
    (∀ x c, h.cells.length ≤ x → h1.read x = some c →
      cellAtLeast h.cells.length c) ∧
    (∀ f g hE, heapLE h1 hE → viewV f h (.ref a) = some g →
      viewV f hE (.ref b) = some g) := by
  unfold deepCopyMapCellH at hcopy
  rcases hr : h.read a with _ | c
  · rw [hr] at hcopy
    cases hcopy
  · rw [hr] at hcopy
    cases c with
    | arrC elems => cases hcopy
    | strArrC l => cases hcopy
    | objC fields =>
      dsimp only at hcopy
      rcases hm : deepCopyFieldsH fuel h fields with _ | p
      · rw [hm] at hcopy
        cases hcopy
      · rw [hm] at hcopy
        obtain ⟨fields2, h2⟩ := p
        simp only [Heap.alloc, Option.some.injEq, Prod.mk.injEq] at hcopy
        obtain ⟨hb, hh1⟩ := hcopy
        subst hb
        subst hh1
        have hcb := hseg a _ ha hr
        have hfs := (deepCopy_spec n fuel).2.1 h fields fields2 h2 hm hseg hns
          hn (fun kv hkv => hcb kv hkv)
        have h2len : h.cells.length ≤ h2.cells.length := heapLE_length hfs.1
        refine ⟨heapLE_trans hfs.1 ⟨[.objC fields2], rfl⟩, h2len, ?_, ?_, ?_⟩
        · simp
        · intro x c hx hrx
          rcases Nat.lt_or_ge x h2.cells.length with hlt | hge
          · rw [read_append h2 _ x hlt] at hrx
            exact hfs.2.2.1 x c hx hrx
          · rcases Nat.lt_or_ge h2.cells.length x with hgt | hle2
            · rw [read_concat_gt h2 _ hgt] at hrx
              cases hrx
            · have hx' : x = h2.cells.length := by omega
              subst hx'
              rw [read_concat_length] at hrx
              cases hrx
              intro kv hkv
              exact hfs.2.1 kv hkv
        · intro f g hE hle hvw
          cases f with
          | zero => simp [viewV] at hvw
          | succ f =>
            simp only [viewV, hr] at hvw
            rcases hgf : viewFields f h fields with _ | gf
            · rw [hgf] at hvw
              cases hvw
            · rw [hgf] at hvw
              have hrE : hE.read h2.cells.length = some (.objC fields2) :=
                heapLE_read hle (read_concat_length h2 _)
              have hvf := hfs.2.2.2 f gf hE
                (heapLE_trans ⟨[.objC fields2], rfl⟩ hle) hgf
              simp only [viewV, hrE]
              rw [hvf]
              exact hvw

/-- The manager invariant: the store never changes, the loaded region
(the first `n` cells of `h0`) is untouched, and all later cells
reference only later cells. -/
def Inv (n : Nat) (h0 : Heap) (store0 : List (String × Nat))
    (st : MState) : Prop :=
  st.store = store0 ∧ prefixEq n h0 st.heap ∧ n ≤ st.heap.cells.length ∧
  segAtLeast n st.heap

theorem generateConfigH_ok_inv {n : Nat} {h0 : Heap}
    {store0 : List (String × Nat)} {fuel : Nat} {st : MState}
    {ty uuid : String} {cfg : DynamicConfig} {b : Nat} {st2 : MState}
    (hgen : GenerateConfigH fuel st ty uuid cfg = some (.ok (b, st2)))
    (hseg0 : segBelow n h0) (hns0 : noShareBelow n h0)
    (hsb : storeBelow store0 n) (hinv : Inv n h0 store0 st) :
    Inv n h0 store0 st2 ∧ n ≤ b := by
  unfold GenerateConfigH at hgen
  rcases hla : lookupAddr st.store ty with _ | a
  · rw [hla] at hgen
    simp at hgen
  · rw [hla] at hgen
    dsimp only at hgen
    have ha : a < n := hsb ty a (hinv.1 ▸ hla)
    rcases hcopy : deepCopyMapCellH fuel st.heap a with _ | p
    · rw [hcopy] at hgen
      cases hgen
    · rw [hcopy] at hgen
      obtain ⟨bb, hc1⟩ := p
      simp only [Option.some.injEq, Except.ok.injEq, Prod.mk.injEq] at hgen
      obtain ⟨hbb, hst2⟩ := hgen
      subst hbb
      subst hst2
      have hsegSt : segBelow n st.heap := segBelow_of_prefixEq hseg0 hinv.2.1
      have hnsSt : noShareBelow n st.heap :=
        noShareBelow_of_prefixEq hns0 hinv.2.1
      have hcp := deepCopyMapCell_spec hcopy hsegSt hnsSt hinv.2.2.1 ha
      have hb : n ≤ bb := Nat.le_trans hinv.2.2.1 hcp.2.1
      have hconf1 : Conf n st.heap hc1 := by
        refine ⟨heapLE_prefixEq hcp.1 hinv.2.2.1, ?_, heapLE_length hcp.1⟩
        intro x c hx hrx
        rcases Nat.lt_or_ge x st.heap.cells.length with hlt | hge
        · rw [heapLE_read_lt hcp.1 hlt] at hrx
          exact hinv.2.2.2 x c hx hrx
        · exact cellAtLeast_mono hinv.2.2.1 (hcp.2.2.2.1 x c hge hrx)
      have hconf3 : Conf n st.heap
          (setUUIDH (updateTemplateWithDynamicConfigH hc1 bb cfg) bb uuid) :=
        setUUIDH_conf (updateTemplateH_conf hconf1 hb hinv.2.2.1) hb
      refine ⟨⟨hinv.1, prefixEq_trans hinv.2.1 hconf3.1,
        Nat.le_trans hinv.2.2.1 hconf3.2.2, hconf3.2.1⟩, hb⟩

theorem runCallsH_inv {n : Nat} {h0 : Heap} {store0 : List (String × Nat)}
    {fuel : Nat} (hseg0 : segBelow n h0) (hns0 : noShareBelow n h0)
    (hsb : storeBelow store0 n) :
    ∀ (calls : List (String × String × DynamicConfig)) (st st' : MState),
      runCallsH fuel calls st = some st' → Inv n h0 store0 st →
      Inv n h0 store0 st'
  | [], st, st', hrun, hinv => by
    simp only [runCallsH, Option.some.injEq] at hrun
    subst hrun
    exact hinv
  | (ty, uuid, cfg) :: rest, st, st', hrun, hinv => by
    simp only [runCallsH] at hrun
    rcases hg : GenerateConfigH fuel st ty uuid cfg with _ | r
    · rw [hg] at hrun
      cases hrun
    · rw [hg] at hrun
      cases r with
      | error e =>
        exact runCallsH_inv hseg0 hns0 hsb rest st st' hrun hinv
      | ok p =>
        obtain ⟨b, st2⟩ := p
        exact runCallsH_inv hseg0 hns0 hsb rest st2 st' hrun
          (generateConfigH_ok_inv hg hseg0 hns0 hsb hinv).1

/-- In a region closed below `n`, reachability stays below `n`. -/
theorem reach_below {n : Nat} {h : Heap} {v : HVal} {x : Nat}
    (hseg : segBelow n h) (hr : ReachesV h v x) : valBelow n v → x < n := by
  induction hr with
  | self a => exact fun hv => hv
  | objStep a fields k w b hread hmem hrw ih =>
    intro hv
    exact ih (hseg a _ hv hread (k, w) hmem)
  | arrStep a elems w b hread hmem hrw ih =>
    intro hv
    exact ih (hseg a _ hv hread w hmem)

/-- In a region closed at or above `n`, reachability stays at or above
`n`. -/
theorem reach_atLeast {n : Nat} {h : Heap} {v : HVal} {x : Nat}
    (hseg : segAtLeast n h) (hr : ReachesV h v x) : valAtLeast n v → n ≤ x := by
  induction hr with
  | self a => exact fun hv => hv
  | objStep a fields k w b hread hmem hrw ih =>
    intro hv
    exact ih (hseg a _ hv hread (k, w) hmem)
  | arrStep a elems w b hread hmem hrw ih =>
    intro hv
    exact ih (hseg a _ hv hread w hmem)

/-- C2: after `LoadTemplates` decodes a list of (share-free, distinctly
named) JSON documents, (1) each document is stored and views back to
itself; (2) after any sequence of `GenerateConfig` requests — each of
which deep-copies the stored template and mutates only the copy — the
store and every stored template's view are unchanged, so subsequent
lookups still denote the originally loaded documents; and (3) a
`GetTemplate` deep copy made at any such point views to exactly the
stored template while reaching no heap cell reachable from any stored
template: the copy shares no mutable container with the store. -/
theorem getTemplate_isolation (ts : List (String × GoMap))
    (hpure : ∀ p ∈ ts, pureFields (Prod.snd p) = true)
    (hnodup : (ts.map Prod.fst).Nodup) :
    (∀ ty m, (ty, m) ∈ ts → ∃ a,
      lookupAddr (loadTemplatesH ts).store ty = some a ∧
      ∀ f, gdepthFields m + 1 ≤ f →
        viewV f (loadTemplatesH ts).heap (.ref a) = some (.obj m)) ∧
    (∀ fuel calls st', runCallsH fuel calls (loadTemplatesH ts) = some st' →
      st'.store = (loadTemplatesH ts).store ∧
      (∀ ty a, lookupAddr (loadTemplatesH ts).store ty = some a →
        ∀ f, viewV f st'.heap (.ref a) =
          viewV f (loadTemplatesH ts).heap (.ref a)) ∧
      (∀ ty a fuel2 b h1,
        lookupAddr (loadTemplatesH ts).store ty = some a →
        deepCopyMapCellH fuel2 st'.heap a = some (b, h1) →
        (∀ f g, viewV f (loadTemplatesH ts).heap (.ref a) = some g →
          viewV f h1 (.ref b) = some g) ∧
        (∀ ty2 a2 x, lookupAddr (loadTemplatesH ts).store ty2 = some a2 →
          ReachesV h1 (.ref b) x → ReachesV h1 (.ref a2) x → False))) := by
  simp only [loadTemplatesH_eq_foldl]
  have hc0 : closedHeap (Heap.mk []) := by
    intro a c hr
    simp [Heap.read] at hr
  have hnsh0 : noShareHeap (Heap.mk []) := by
    intro a l hr
    simp [Heap.read] at hr
  have hsb0 : storeBelow ([] : List (String × Nat))
      (Heap.mk []).cells.length := by
    intro ty a hla
    simp [lookupAddr] at hla
  have hload := load_fold ts ⟨⟨[]⟩, []⟩ hpure hc0 hnsh0 hsb0
  set st0 := ts.foldl loadStep (⟨⟨[]⟩, []⟩ : MState) with hst0
  have hseg0 : segBelow st0.heap.cells.length st0.heap :=
    closedHeap_segBelow hload.2.1
  have hns1 : noShareBelow st0.heap.cells.length st0.heap :=
    noShareHeap_noShareBelow hload.2.2.1
  have hsb : storeBelow st0.store st0.heap.cells.length := hload.2.2.2.1
  refine ⟨hload.2.2.2.2.2 hnodup, ?_⟩
  intro fuel calls st' hrun
  have hinv0 : Inv st0.heap.cells.length st0.heap st0.store st0 := by
    refine ⟨rfl, prefixEq_refl _ _, Nat.le_refl _, ?_⟩
    intro x c hx hrx
    exact absurd (read_lt_length hrx) (Nat.not_lt.2 hx)
  have hinv := runCallsH_inv hseg0 hns1 hsb calls st0 st' hrun hinv0
  refine ⟨hinv.1, ?_, ?_⟩
  · intro ty a hla f
    exact (view_prefixEq st0.heap.cells.length f).1 st0.heap st'.heap (.ref a)
      hseg0 hinv.2.1 (hsb ty a hla)
  · intro ty a fuel2 b h1 hla hcopy
    have ha : a < st0.heap.cells.length := hsb ty a hla
    have hsegSt : segBelow st0.heap.cells.length st'.heap :=
      segBelow_of_prefixEq hseg0 hinv.2.1
    have hnsSt : noShareBelow st0.heap.cells.length st'.heap :=
      noShareBelow_of_prefixEq hns1 hinv.2.1
    have hcp := deepCopyMapCell_spec hcopy hsegSt hnsSt hinv.2.2.1 ha
    have hbn : st0.heap.cells.length ≤ b := Nat.le_trans hinv.2.2.1 hcp.2.1
    have hsegA1 : segAtLeast st0.heap.cells.length h1 := by
      intro x c hx hrx
      rcases Nat.lt_or_ge x st'.heap.cells.length with hlt | hge
      · rw [heapLE_read_lt hcp.1 hlt] at hrx
        exact hinv.2.2.2 x c hx hrx
      · exact cellAtLeast_mono hinv.2.2.1 (hcp.2.2.2.1 x c hge hrx)
    have hsegB1 : segBelow st0.heap.cells.length h1 :=
      segBelow_of_prefixEq hseg0
        (prefixEq_trans hinv.2.1 (heapLE_prefixEq hcp.1 hinv.2.2.1))
    refine ⟨?_, ?_⟩
    · intro f g hg
      have hst' : viewV f st'.heap (.ref a) = some g := by
        rw [(view_prefixEq st0.heap.cells.length f).1 st0.heap st'.heap
          (.ref a) hseg0 hinv.2.1 ha]
        exact hg
      exact hcp.2.2.2.2 f g h1 (heapLE_refl h1) hst'
    · intro ty2 a2 x hla2 hrb hra2
      have hxa : st0.heap.cells.length ≤ x := reach_atLeast hsegA1 hrb hbn
      have hx2 : x < st0.heap.cells.length :=
        reach_below hsegB1 hra2 (hsb ty2 a2 hla2)
      omega

/-- A one-template manager exercising the isolation theorem. -/
def c2doc : GoMap := [("type", GoVal.str "vless")]

theorem getTemplate_isolation_witness :
    (∀ p ∈ [("vless", c2doc)], pureFields (Prod.snd p) = true) ∧
    (([("vless", c2doc)].map Prod.fst).Nodup) ∧
    (∃ a, lookupAddr (loadTemplatesH [("vless", c2doc)]).store "vless" =
        some a ∧
      ∀ f, gdepthFields c2doc + 1 ≤ f →
        viewV f (loadTemplatesH [("vless", c2doc)]).heap (.ref a) =
          some (.obj c2doc)) := by
  have hpure : ∀ p ∈ [("vless", c2doc)], pureFields (Prod.snd p) = true := by
    intro p hp
    rw [List.mem_singleton] at hp
    subst hp
    simp [c2doc, pureFields, pureV]
  have hnodup : (([("vless", c2doc)].map Prod.fst).Nodup) := by simp
  exact ⟨hpure, hnodup,
    (getTemplate_isolation [("vless", c2doc)] hpure hnodup).1 "vless" c2doc
      (List.mem_cons_self _ _)⟩

end VlessGen
